import Mathlib

/-!
Verification development for the fragment traversal & termination engine of
`lcatools` (files `lcatools/old_foreground/fragment_flows.py` and
`lcatools/lcia_results.py`).

The Python classes are shallowly embedded:
* float values become `ℚ`;
* the mutable object graph of `LcFragment`s becomes an arena (`World`) mapping
  fragment uuids (`Nat`) to `Fragment` records; the one traversal-time mutation
  (`_cache_balance_ev`) becomes explicit state passing of the `World`;
* Python exceptions become an error type threaded through `Except`;
* the unbounded recursion of `LcFragment.traverse` becomes fuel-indexed
  recursion (`TravErr.outOfFuel` when the fuel runs out).
-/

namespace Lca

/-- Direction of a fragment flow with respect to its parent. -/
inductive Direction
  | Input
  | Output
deriving DecidableEq, Repr

/-- `lcatools.exchanges.comp_dir`: the complementary direction. -/
def comp_dir : Direction → Direction
  | .Input => .Output
  | .Output => .Input

/-- A scenario specifier as accepted by `exchange_value` / `traverse`:
`None`, a plain string, or a tuple of candidate strings. -/
inductive Scenario
  | noScen
  | str (s : String)
  | tup (l : List String)
deriving DecidableEq, Repr

/-- A key of the `_exchange_values` dict: integer slot 0 (cached), integer
slot 1 (observed), a string scenario name, or a tuple scenario key (tuples
enter the dict from JSON loading, via the `____` delimiter, and from
`_cache_balance_ev`). -/
inductive EvKey
  | cached
  | observed
  | str (s : String)
  | tup (l : List String)
deriving DecidableEq, Repr

/-- The exceptions that the embedded code can raise.  `outOfFuel` is an
artifact of the fuel-indexed embedding of the unbounded Python recursion;
`typeError` / `indexError` / `zeroDivision` stand for the corresponding
built-in Python exceptions on the (unreachable or degenerate) paths where the
source would crash rather than raise one of its own exception classes. -/
inductive TravErr
  | scenarioConflict
  | balanceFlowError
  | invalidParentChild
  | flowConversionError
  | missingFragment
  | outOfFuel
  | typeError
  | indexError
  | zeroDivision
deriving DecidableEq, Repr

/-- An `LcFlow`, reduced to what the traversal engine reads: its uuid, the
uuid of its reference quantity, and its characterization-factor lookup
`cf : quantity-uuid → ℚ` (at the default location; `LcFlow.cf` returns `0.0`
for a quantity with no characterization).  `LcFlow.__init__` auto-adds a
characterization of factor `1.0` for the reference quantity, so well-formed
flows satisfy `cf refQty = 1`; this is not baked in here and is assumed where
needed. -/
structure Flow where
  fid : Nat
  refQty : Nat
  cf : Nat → ℚ

/-- The target of a `FlowTermination` (`_process_ref`): a process catalog ref
or a fragment.  A foreground (self) termination is `frag i` where `i` is the
owning fragment's uuid. -/
inductive TermTarget
  | process (pid : Nat)
  | frag (ffid : Nat)
deriving DecidableEq, Repr

/-- `FlowTermination`, reduced to the fields the traversal reads.  The
per-termination LCIA score cache is not modelled: traversal never reads it
(`aggregate_subfragments` only writes it), and impact aggregation
(`lcia_results.py`) is embedded separately below. -/
structure FlowTermination where
  termNode : Option TermTarget
  termFlow : Flow
  direction : Direction
  descend : Bool
  inboundEv : ℚ

/-- `FlowTermination.is_null`. -/
def FlowTermination.is_null (t : FlowTermination) : Bool :=
  t.termNode.isNone

/-- `FlowTermination.is_fg`: the termination target is the owning fragment
itself (`term_node is self._parent`); `selfId` is the owning fragment's uuid. -/
def FlowTermination.is_fg (t : FlowTermination) (selfId : Nat) : Bool :=
  t.termNode = some (.frag selfId)

/-- `term_node.entity_type == 'process'`. -/
def FlowTermination.isProcessTarget (t : FlowTermination) : Bool :=
  match t.termNode with
  | some (.process _) => true
  | _ => false

/-- `FlowTermination.null(fragment)`: null termination; `set_term_flow` falls
back to the owning fragment's flow, the direction defaults to the complement
of the fragment's, `descend` defaults to `True`, and `_set_inbound_ev(None)`
yields `1.0` for a null target. -/
def nullTermination (flow : Flow) (dir : Direction) : FlowTermination :=
  { termNode := none, termFlow := flow, direction := comp_dir dir,
    descend := true, inboundEv := 1 }

/-- An `LcFragment`, reduced to the state the traversal engine reads and
writes.  `reference_entity` is the parent fragment's uuid (or `none` for a
reference/background node).  `children` is the child-flow enumeration (in the
source an injected lambda; here owned data, which is equivalent for a fixed
world).  The termination dict always holds the key `None`
(`__init__` sets `_terminations[None] = FlowTermination.null(self)`), so it is
split into `termDefault` (the `None` key) and `termScen` (the string keys;
`terminate` refuses tuple scenario keys). -/
structure Fragment where
  fid : Nat
  flow : Flow
  direction : Direction
  reference_entity : Option Nat
  is_background : Bool
  balance_flow : Bool
  conserved_quantity : Option Nat
  evs : List (EvKey × ℚ)
  termDefault : FlowTermination
  termScen : List (String × FlowTermination)
  children : List Nat

/-- The arena of fragments, standing for the Python object graph.  Traversal
mutates it only through `_cache_balance_ev`. -/
structure World where
  frags : Nat → Option Fragment

/-- Replace the fragment stored under `i`. -/
def World.setFrag (w : World) (i : Nat) (f : Fragment) : World :=
  ⟨fun j => if j = i then some f else w.frags j⟩

/-- Dict upsert on an exchange-value store (replace the value of an existing
key, else add the entry). -/
def updateEvStore (evs : List (EvKey × ℚ)) (k : EvKey) (v : ℚ) :
    List (EvKey × ℚ) :=
  if (evs.lookup k).isSome then
    evs.map (fun p => if p.1 = k then (k, v) else p)
  else evs ++ [(k, v)]

/-- `cached_ev` property: `self._exchange_values[0] or 0`.  (For a rational
value the Python `or 0` is the identity: a falsy float is `0.0` itself.  A
missing slot 0, impossible after `_new_evs`, also gives `0`.) -/
def cached_ev (f : Fragment) : ℚ :=
  (f.evs.lookup .cached).getD 0

/-- `observed_ev` property: `self._exchange_values[1]` (slot 1 is initialized
to `0.0` by `_new_evs`). -/
def observed_ev (f : Fragment) : ℚ :=
  (f.evs.lookup .observed).getD 0

/-- Membership test `scenario in self._exchange_values.keys()`.  `None` is
never a key of the exchange-value dict (its integer slots are 0 and 1). -/
def lookupScenEv (evs : List (EvKey × ℚ)) : Scenario → Option ℚ
  | .noScen => none
  | .str s => evs.lookup (.str s)
  | .tup l => evs.lookup (.tup l)

/-- The member loop shared by `_match_scenario_ev` and
`_match_scenario_term` over a scenario tuple, abstracted over the membership
test `present` (the respective dict's key set): a second member found among
the stored keys raises `ScenarioConflict`. -/
def tupMatchLoop (present : String → Bool) :
    List String → Option String → Except TravErr (Option String)
  | [], acc => .ok acc
  | s :: rest, acc =>
    if present s then
      match acc with
      | some _ => .error .scenarioConflict
      | none => tupMatchLoop present rest (some s)
    else tupMatchLoop present rest acc

/-- The member loop of `_match_scenario_ev` over a scenario tuple. -/
def matchTupEv (evs : List (EvKey × ℚ)) (l : List String)
    (acc : Option String) : Except TravErr (Option String) :=
  tupMatchLoop (fun s => (evs.lookup (.str s)).isSome) l acc

/-- `LcFragment._match_scenario_ev`: the scenario itself, if it is a stored
key; else, for a tuple, the unique member that is a stored key (two members
matching is a `ScenarioConflict`); else no match. -/
def match_scenario_ev (evs : List (EvKey × ℚ)) (scenario : Scenario) :
    Except TravErr (Option EvKey) :=
  match scenario with
  | .noScen => .ok none
  | .str s =>
    if (evs.lookup (.str s)).isSome then .ok (some (.str s)) else .ok none
  | .tup l =>
    if (evs.lookup (.tup l)).isSome then .ok (some (.tup l))
    else (matchTupEv evs l none).map (·.map EvKey.str)

/-- The value selection of `exchange_value` before the root fallback: the
scenario's own stored value if the scenario is a dict key; else, with no
match, the observed magnitude for a balance flow or `observed=True` and the
cached magnitude otherwise; else the matched key's stored value. -/
def exchange_value_base (f : Fragment) (scenario : Scenario)
    (mtch : Option EvKey) (observed : Bool) : ℚ :=
  match lookupScenEv f.evs scenario with
  | some v => v
  | none =>
    match mtch with
    | none => if observed || f.balance_flow then observed_ev f else cached_ev f
    | some k => (f.evs.lookup k).getD 0

/-- `LcFragment.exchange_value(scenario, observed)`.  The `if ev is None`
branch of the source (a dict value of `None`, possible only through JSON
loading) has no counterpart here because values are `ℚ`. -/
def exchange_value (f : Fragment) (scenario : Scenario) (observed : Bool) :
    Except TravErr ℚ := do
  let mtch ← match_scenario_ev f.evs scenario
  let ev := exchange_value_base f scenario mtch observed
  pure (if ev = 0 ∧ f.reference_entity = none then cached_ev f else ev)

/-- The member loop of `_match_scenario_term` over a scenario tuple. -/
def matchTupTerm (f : Fragment) (l : List String) (acc : Option String) :
    Except TravErr (Option String) :=
  tupMatchLoop (fun s => (f.termScen.lookup s).isSome) l acc

/-- `LcFragment._match_scenario_term`.  The result is a key of the
termination dict: `none` stands both for "no match" and for the dict key
`None` (the Python function returns `None` in both cases, and `termination`
then looks up the `None` key either way). -/
def match_scenario_term (f : Fragment) (scenario : Scenario) :
    Except TravErr (Option String) :=
  match scenario with
  | .tup l => matchTupTerm f l none
  | .noScen => .ok none
  | .str s => if (f.termScen.lookup s).isSome then .ok (some s) else .ok none

/-- `LcFragment.termination(scenario)`: the termination stored under the
matched key, falling back to the always-present `None` key.  (The fallback on
a `some` key whose entry is missing is unreachable: `_match_scenario_term`
only returns keys it found in the dict.) -/
def termination (f : Fragment) (scenario : Scenario) :
    Except TravErr FlowTermination := do
  let mtch ← match_scenario_term f scenario
  match mtch with
  | none => pure f.termDefault
  | some s =>
    match f.termScen.lookup s with
    | some t => pure t
    | none => pure f.termDefault

/-- The dict key written by `_cache_balance_ev`: slot 1 (observed) when no
scenario is in effect, else the scenario itself. -/
def cacheBalanceKey : Scenario → EvKey
  | .noScen => .observed
  | .str s => .str s
  | .tup l => .tup l

/-- `LcFragment._cache_balance_ev(_balance, scenario)`: record a
traversal-computed balance magnitude in the exchange-value store. -/
def cache_balance_ev (f : Fragment) (bal : ℚ) (scenario : Scenario) :
    Fragment :=
  { f with evs := updateEvStore f.evs (cacheBalanceKey scenario) bal }

/-- `FlowTermination.flow_conversion`:
`self._parent.flow.convert(1.0, to=term_flow.reference_entity)`, raising
`FlowConversionError` when the owning fragment's flow has no characterization
for the target quantity.  `LcFlow.convert` divides by the flow's factor for
its own reference quantity (`1.0` for a well-formed flow; a zero factor there
would be a Python `ZeroDivisionError`). -/
def flow_conversion (f : Fragment) (t : FlowTermination) : Except TravErr ℚ :=
  if f.flow.cf t.termFlow.refQty = 0 then .error .flowConversionError
  else if f.flow.cf f.flow.refQty = 0 then .error .zeroDivision
  else .ok (f.flow.cf t.termFlow.refQty / f.flow.cf f.flow.refQty)

/-- `FlowTermination.node_weight_multiplier = flow_conversion / inbound_exchange_value`. -/
def node_weight_multiplier (f : Fragment) (t : FlowTermination) :
    Except TravErr ℚ := do
  let fc ← flow_conversion f t
  if t.inboundEv = 0 then .error .zeroDivision else pure (fc / t.inboundEv)

/-- `LcFragment.node_weight(magnitude, scenario)` with the termination passed
in (the source re-resolves it; the resolution is pure, so the value is the
same). -/
def node_weight (f : Fragment) (magnitude : ℚ) (t : FlowTermination) :
    Except TravErr ℚ :=
  if t.is_null then pure magnitude
  else do
    let m ← node_weight_multiplier f t
    pure (magnitude * m)

/-- The identity carried by a `FragmentFlow` record: a real fragment (by
uuid), or the `GhostFragmentFlow` stand-in created during reference
correction of a sub-fragment traversal (a `GhostFrag` named tuple holding
only a flow and a direction). -/
inductive FFid
  | frag (i : Nat)
  | ghost (flow : Flow) (direction : Direction)

/-- Whether an `FFid` is the real fragment `i` (`_zz.fragment is term.term_node`). -/
def FFid.isFrag (x : FFid) (i : Nat) : Bool :=
  match x with
  | .frag j => j = i
  | .ghost _ _ => false

/-- A `FragmentFlow` record, the immutable traversal output.
`GhostFragmentFlow` objects are folded into the same type via `FFid.ghost`;
they define no `node_weight` and no `is_conserved` in the source, so those
fields are junk (`0` / `false`) for a ghost and `scaleFF` refuses to scale
one (in Python that would be an `AttributeError`). -/
structure FragmentFlow where
  fragment : FFid
  magnitude : ℚ
  node_weight : ℚ
  term : FlowTermination
  is_conserved : Bool

/-- `FragmentFlow.scale(x)`: multiply node weight and magnitude. -/
def scaleFF (x : FragmentFlow) (k : ℚ) : Except TravErr FragmentFlow :=
  match x.fragment with
  | .ghost _ _ => .error .typeError
  | .frag _ =>
    .ok { x with magnitude := x.magnitude * k, node_weight := x.node_weight * k }

/-- `GhostFragmentFlow(flow, direction)`: magnitude `1.0` and a null
termination built on the ghost (whose `set_term_flow` picks the ghost's own
flow, and whose direction defaults to the complement of the ghost's). -/
def ghostRecord (flow : Flow) (dir : Direction) : FragmentFlow :=
  { fragment := .ghost flow dir, magnitude := 1, node_weight := 0,
    term := nullTermination flow dir, is_conserved := false }

/-- The flow uuid behind a record's `fragment.flow` (world lookup for a real
fragment; a ghost carries its flow directly). -/
def ffFlowId (w : World) : FFid → Option Nat
  | .frag i => (w.frags i).map (fun fr => fr.flow.fid)
  | .ghost fl _ => some fl.fid

/-- The direction behind a record's `fragment.direction`. -/
def ffDirection (w : World) : FFid → Option Direction
  | .frag i => (w.frags i).map (fun fr => fr.direction)
  | .ghost _ d => some d

/-- The entry block of `traverse`: the node's exchange value, inverted for a
reference (root) fragment, or the externally forced `_balance` magnitude.
A reference node whose exchange value resolves to `0` is a Python
`ZeroDivisionError`. -/
def entryEv (f : Fragment) (scenario : Scenario) (observed : Bool)
    (bal : Option ℚ) : Except TravErr ℚ :=
  match bal with
  | none =>
    match f.reference_entity with
    | none => do
      let e ← exchange_value f scenario observed
      if e = 0 then .error .zeroDivision else pure (1 / e)
    | some _ => exchange_value f scenario observed
  | some b => pure b

/-- The conserved-quantity block of `traverse`: a balance flow reached with a
conservation context raises `BalanceFlowError` (the control signal its parent
catches); otherwise the signed conserved contribution `ev * cf` (inputs to
the parent positive, outputs negative) and the `conserved` flag (set when the
unsigned contribution is nonzero). -/
def conservedCalc (f : Fragment) (conserved_qty : Option Nat) (ev : ℚ) :
    Except TravErr (Option ℚ × Bool) :=
  match conserved_qty with
  | none => .ok (none, false)
  | some q =>
    if f.balance_flow then .error .balanceFlowError
    else
      let cv := ev * f.flow.cf q
      let flag := if cv = 0 then false else true
      .ok (some (if f.direction = .Output then -cv else cv), flag)

/-- The recursion guard of `traverse`: a reference (root) fragment already in
the frags-seen set of the current branch raises `InvalidParentChild`;
otherwise a root adds itself to the set. -/
def rootSeenCheck (f : Fragment) (seen : List Nat) :
    Except TravErr (List Nat) :=
  match f.reference_entity with
  | none =>
    if f.fid ∈ seen then .error .invalidParentChild else .ok (f.fid :: seen)
  | some _ => .ok seen

/-- The opening stock of the conservation bookkeeping in `traverse`: the
node's own characterization for its conserved quantity, rescaled by the
node's exchange value when it is a reference node (whose ev is inbound), and
negated when the node's flow is an `Input` (inputs to self positive). -/
def initialStock (f : Fragment) (scenario : Scenario) (observed : Bool) :
    Except TravErr (Option ℚ) :=
  match f.conserved_quantity with
  | none => .ok none
  | some cq => do
    let s := f.flow.cf cq
    let s ← match f.reference_entity with
      | none => do
        let e ← exchange_value f scenario observed
        pure (s * e)
      | some _ => pure s
    pure (some (if f.direction = .Input then -s else s))

/-- `LcFragment.top()`: follow parents to the reference fragment
(fuel-bounded here, unbounded recursion in the source). -/
def topFrag : Nat → World → Nat → Except TravErr Nat
  | 0, _, _ => .error .outOfFuel
  | fuel + 1, w, i =>
    match w.frags i with
    | none => .error .missingFragment
    | some f =>
      match f.reference_entity with
      | none => .ok i
      | some p => topFrag fuel w p

/-- The in-place accumulation over matching io records used by the
sub-fragment child loop: starting from `0.0`, add the magnitude of every io
record whose flow matches the child's flow (same direction positive, opposed
negative) and drop those records; non-matching records are kept in order.
(The source collects `matches` first and then `ios.remove(m)`s each; as each
removed object is the list member itself, that equals one partition pass.) -/
def iosCollect (w : World) (ios : List FragmentFlow) (flowId : Nat)
    (dir : Direction) : ℚ × List FragmentFlow :=
  ios.foldl
    (fun st z =>
      if ffFlowId w z.fragment = some flowId then
        (if ffDirection w z.fragment = some dir then st.1 + z.magnitude
         else st.1 - z.magnitude, st.2)
      else (st.1, st.2 ++ [z]))
    (0, [])

/-- The auto-consumption correction of a sub-fragment traversal: adjust the
inbound exchange by every io record matching the termination's flow (same
direction as the termination subtracts, opposed adds) and drop those
records. -/
def autoConsume (w : World) (ios : List FragmentFlow) (flowId : Nat)
    (dir : Direction) (start : ℚ) : ℚ × List FragmentFlow :=
  ios.foldl
    (fun st z =>
      if ffFlowId w z.fragment = some flowId then
        (if ffDirection w z.fragment = some dir then st.1 - z.magnitude
         else st.1 + z.magnitude, st.2)
      else (st.1, st.2 ++ [z]))
    (start, [])

/-- The type of the recursive traversal continuation (the partially applied
`traverse` at the remaining fuel). -/
def TravRec : Type :=
  World → Nat → ℚ → Scenario → Bool → List Nat → Option Nat → Option ℚ →
    Except TravErr (List FragmentFlow × Option ℚ × World)

/-- The child loop of the foreground/process branch of `traverse`: expand
each child at the node weight in the same conservation context, summing
conserved contributions into the stock; a child raising `BalanceFlowError`
is recorded as the balance child and contributes nothing yet.  (The source
copies the frags-seen set per child; sets are values here.) -/
def childLoop (tr : TravRec) (nw : ℚ) (scenario : Scenario) (observed : Bool)
    (seen : List Nat) (cq : Option Nat) :
    List Nat → List FragmentFlow → Option ℚ → Option Nat → World →
    Except TravErr (List FragmentFlow × Option ℚ × Option Nat × World)
  | [], acc, stock, balf, w => .ok (acc, stock, balf, w)
  | c :: rest, acc, stock, balf, w =>
    match tr w c nw scenario observed seen cq none with
    | .error .balanceFlowError =>
      childLoop tr nw scenario observed seen cq rest acc stock (some c) w
    | .error e => .error e
    | .ok (cff, cons, w') =>
      match stock, cons with
      | some s, some cv =>
        childLoop tr nw scenario observed seen cq rest (acc ++ cff)
          (some (s + cv)) balf w'
      | stock', none =>
        childLoop tr nw scenario observed seen cq rest (acc ++ cff)
          stock' balf w'
      | none, some _ => .error .typeError

/-- The child loop of the sub-fragment branch of `traverse`: each child's
exchange value is collected from the remaining io records of the sub-fragment
traversal and forced via `_balance`; the child is expanded at the downstream
node weight. -/
def subChildLoop (tr : TravRec) (dnw : ℚ) (scenario : Scenario)
    (observed : Bool) (seen : List Nat) :
    List Nat → List FragmentFlow → List FragmentFlow → World →
    Except TravErr (List FragmentFlow × List FragmentFlow × World)
  | [], acc, ios, w => .ok (acc, ios, w)
  | c :: rest, acc, ios, w =>
    match w.frags c with
    | none => .error .missingFragment
    | some cf =>
      let col := iosCollect w ios cf.flow.fid cf.direction
      match tr w c dnw scenario observed seen none (some col.1) with
      | .error e => .error e
      | .ok (cff, _, w') =>
        subChildLoop tr dnw scenario observed seen rest (acc ++ cff)
          col.2 w'

/-- One step of `LcFragment.traverse(upstream_nw, scenario, observed,
frags_seen, conserved_qty, _balance)`, with the recursive call abstracted as
`tr`.  Returns the ordered `FragmentFlow` records, the node's conserved
contribution, and the world after the `_cache_balance_ev` side effects.  The
termination is resolved once here and shared with `node_weight` (the source
resolves it twice; the resolution is pure). -/
def traverseStep (tr : TravRec) (topF : World → Nat → Except TravErr Nat) :
    TravRec := fun w fid upstream_nw scenario observed frags_seen
      conserved_qty _balance => do
  let some self0 := w.frags fid | .error .missingFragment
  let ev ← entryEv self0 scenario observed _balance
  let self := match _balance with
    | some b => cache_balance_ev self0 b scenario
    | none => self0
  let w := match _balance with
    | some _ => w.setFrag fid self
    | none => w
  let magnitude := upstream_nw * ev
  let cc ← conservedCalc self conserved_qty ev
  let conserved_val := cc.1
  let term ← termination self scenario
  let nw ← node_weight self magnitude term
  let ff0 : FragmentFlow := ⟨.frag fid, magnitude, nw, term, cc.2⟩
  if term.is_null ∨ self.is_background = true ∨ magnitude = 0 then
    pure ([ff0], conserved_val, w)
  else do
    let frags_seen ← rootSeenCheck self frags_seen
    if term.is_fg fid ∨ term.isProcessTarget then do
      -- foreground / process: expand every child at the node weight,
      -- deferring a balance child until the conserved deltas are summed
      let stock0 ← initialStock self scenario observed
      let st ← childLoop tr nw scenario observed frags_seen
        self.conserved_quantity self.children [] stock0 none w
      let (rest, stock, balf, w) := st
      match balf with
      | none => pure (ff0 :: rest, conserved_val, w)
      | some bc => do
        let some bcf := w.frags bc | .error .missingFragment
        let some stockv := stock | .error .typeError
        -- balance reports net inflows; an Input balance flow carries their
        -- negation, an Output balance flow carries them as is
        let stockv := if bcf.direction = .Input then -stockv else stockv
        let bres ← tr w bc nw scenario observed frags_seen none (some stockv)
        pure (ff0 :: (rest ++ bres.1), conserved_val, bres.2.2)
    else
      match term.termNode with
      | some (.frag tfid) => do
        let some tf := w.frags tfid | .error .missingFragment
        if tf.is_background then do
          -- background target: delegate wholly at the current node weight,
          -- re-identify the lead record as this node, expand no children
          let bres ← tr w tfid nw scenario observed [] none none
          match bres.1 with
          | [] => .error .indexError
          | b0 :: bs =>
            pure ({ b0 with fragment := .frag fid } :: bs, conserved_val,
              bres.2.2)
        else do
          -- proper sub-fragment
          let ref ← (match tf.reference_entity with
            | some _ => do
              let rid ← topF w tfid
              let some rf := w.frags rid | .error .missingFragment
              let ie ← exchange_value rf scenario observed
              pure ((rid, rf), true,
                if tf.direction = self.direction then -ie else ie)
            | none => do
              let ie ← exchange_value tf scenario observed
              pure ((tfid, tf), false,
                if tf.direction ≠ self.direction then -ie else ie) :
              Except TravErr ((Nat × Fragment) × Bool × ℚ))
          let ((refId, rf), correct_reference, in_ex0) := ref
          let sres ← tr w refId in_ex0 scenario observed frags_seen none none
          let sffs := sres.1
          let w := sres.2.2
          let ios0 := sffs.filter (fun z => z.term.is_null)
          let subfrags := sffs.filter (fun z => !z.term.is_null)
          let pr :=
            if correct_reference then
              let hits := ios0.filter (fun z => z.fragment.isFrag tfid)
              let ie := match hits.getLast? with
                | some z => z.magnitude
                | none => in_ex0
              (ie, (ios0.filter (fun z => !z.fragment.isFrag tfid)) ++
                [ghostRecord rf.flow (comp_dir rf.direction)])
            else (in_ex0, ios0)
          let ac := autoConsume w pr.2 term.termFlow.fid term.direction pr.1
          let (in_ex2, ios2) := ac
          if in_ex2 = 0 then .error .zeroDivision
          else do
            let downstream_nw := nw / |in_ex2|
            let sw ← (if self.balance_flow then
                match _balance with
                | some b =>
                  let ns := cache_balance_ev self (b / in_ex2) scenario
                  pure (ns, w.setFrag fid ns)
                | none => .error .typeError
              else pure (self, w) :
              Except TravErr (Fragment × World))
            let (self, w) := sw
            -- descending splices the rescaled sub-structure in situ;
            -- aggregating instead calls
            -- `ff[0].term.aggregate_subfragments(subfrags)` (filling the
            -- score cache, not traversal-visible state) and the lead
            -- record's node weight becomes the downstream one
            let ff1 := if term.descend then ff0
              else { ff0 with node_weight := downstream_nw }
            let mid ← (if term.descend then
                subfrags.mapM (fun i => scaleFF i downstream_nw)
              else pure ([] : List FragmentFlow) :
              Except TravErr (List FragmentFlow))
            let sc ← subChildLoop tr downstream_nw scenario observed
              frags_seen self.children [] ios2 w
            let (rest2, ios3, w) := sc
            let iosScaled ← ios3.mapM (fun x => scaleFF x downstream_nw)
            pure (ff1 :: (mid ++ rest2 ++ iosScaled), conserved_val, w)
      | _ => .error .typeError

/-- `LcFragment.traverse`, fuel-indexed: each recursion level consumes one
unit of fuel (the source recursion is unbounded; `outOfFuel` marks
exhaustion). -/
def traverse : Nat → TravRec
  | 0 => fun _ _ _ _ _ _ _ _ => .error .outOfFuel
  | fuel + 1 => traverseStep (traverse fuel) (topFrag (fuel + 1))

/-- The entry exchange value of `LcFragment.traversal_entry`: the resolved
exchange value itself for a reference (root) fragment, its reciprocal for a
non-root fragment. -/
def travEntryInWt (f : Fragment) (scenario : Scenario) (observed : Bool) :
    Except TravErr ℚ :=
  match f.reference_entity with
  | none => exchange_value f scenario observed
  | some _ => do
    let e ← exchange_value f scenario observed
    if e = 0 then .error .zeroDivision else pure (1 / e)

/-- `LcFragment.traversal_entry(scenario, observed)`: compute the entry node
weight and delegate to `traverse`; the conserved value is discarded but the
world mutations persist. -/
def traversal_entry (fuel : Nat) (w : World) (fid : Nat)
    (scenario : Scenario) (observed : Bool) :
    Except TravErr (List FragmentFlow × World) := do
  let some f := w.frags fid | .error .missingFragment
  let in_wt ← travEntryInWt f scenario observed
  let r ← traverse fuel w fid in_wt scenario observed [] none none
  pure (r.1, r.2.2)

/-- `LcFragment.__init__`, reduced to the state it establishes: `background`
forces the parent to `None`; `_new_evs` seeds slots 0/1 and the cached slot
is then set to the given exchange value; the default termination is the null
termination.  (`balance_flow=True` additionally registers the conserved
quantity on the parent via `set_balance_flow`; that parent-side mutation is
outside this constructor's own record.) -/
def mkFragment (the_uuid : Nat) (flow : Flow) (direction : Direction)
    (parent : Option Nat) (ev : ℚ) (balance_flow : Bool)
    (background : Bool) (children : List Nat) : Fragment :=
  let parent := if background then none else parent
  { fid := the_uuid, flow := flow, direction := direction,
    reference_entity := parent, is_background := background,
    balance_flow := balance_flow, conserved_quantity := none,
    evs := [(.cached, ev), (.observed, 0)],
    termDefault := nullTermination flow direction, termScen := [],
    children := children }

/-- A flow with reference quantity `100` and a factor of `3` for quantity
`101` (the reference quantity of `exFlowB`). -/
def exFlowA : Flow := ⟨10, 100, fun q => if q = 100 then 1 else if q = 101 then 3 else 0⟩

/-- A flow with reference quantity `101`. -/
def exFlowB : Flow := ⟨11, 101, fun q => if q = 101 then 1 else 0⟩

/-- The default termination of `bgDelegator`: the background fragment `1`. -/
def bgDelegTerm : FlowTermination :=
  { termNode := some (.frag 1), termFlow := exFlowB,
    direction := .Output, descend := true, inboundEv := 1 }

/-- A reference (root) fragment, not itself background, terminated by default
to the background fragment `1`. -/
def bgDelegator : Fragment :=
  { fid := 0, flow := exFlowA, direction := .Input, reference_entity := none,
    is_background := false, balance_flow := false, conserved_quantity := none,
    evs := [(.cached, 1), (.observed, 0)],
    termDefault := bgDelegTerm,
    termScen := [], children := [] }

/-- A background fragment with cached exchange value `2` and a null default
termination. -/
def bgTarget : Fragment :=
  { fid := 1, flow := exFlowB, direction := .Output, reference_entity := none,
    is_background := true, balance_flow := false, conserved_quantity := none,
    evs := [(.cached, 2), (.observed, 0)],
    termDefault := nullTermination exFlowB .Output, termScen := [],
    children := [] }

/-- The two-fragment world in which root `0` delegates to background `1`. -/
def bgWorld : World :=
  ⟨fun i => if i = 0 then some bgDelegator else if i = 1 then some bgTarget
    else none⟩

/-- Flow for the cycle example, convertible to `cycFlowB`'s reference. -/
def cycFlowA : Flow := ⟨20, 200, fun q => if q = 200 ∨ q = 201 then 1 else 0⟩

/-- Flow for the cycle example, convertible to `cycFlowA`'s reference. -/
def cycFlowB : Flow := ⟨21, 201, fun q => if q = 200 ∨ q = 201 then 1 else 0⟩

/-- The default termination of `cycFrag0`: the sub-fragment `1`. -/
def cycTerm0 : FlowTermination :=
  { termNode := some (.frag 1), termFlow := cycFlowB,
    direction := .Input, descend := true, inboundEv := 1 }

/-- The default termination of `cycFrag1`: the sub-fragment `0`. -/
def cycTerm1 : FlowTermination :=
  { termNode := some (.frag 0), termFlow := cycFlowA,
    direction := .Input, descend := true, inboundEv := 1 }

/-- Root fragment `0`, sub-fragment-terminated to root `1`. -/
def cycFrag0 : Fragment :=
  { fid := 0, flow := cycFlowA, direction := .Output, reference_entity := none,
    is_background := false, balance_flow := false, conserved_quantity := none,
    evs := [(.cached, 1), (.observed, 0)],
    termDefault := cycTerm0,
    termScen := [], children := [] }

/-- Root fragment `1`, sub-fragment-terminated back to root `0`. -/
def cycFrag1 : Fragment :=
  { fid := 1, flow := cycFlowB, direction := .Output, reference_entity := none,
    is_background := false, balance_flow := false, conserved_quantity := none,
    evs := [(.cached, 1), (.observed, 0)],
    termDefault := cycTerm1,
    termScen := [], children := [] }

/-- A structurally cyclic fragment graph: `0 → 1 → 0`. -/
def cycleWorld : World :=
  ⟨fun i => if i = 0 then some cycFrag0 else if i = 1 then some cycFrag1
    else none⟩

/-- A non-root fragment with exchange values stored under `"a"`, `"b"` and
under the tuple key `("a","b")` (tuple keys are real: JSON loading splits on
the `____` delimiter into tuples). -/
def fragABT : Fragment :=
  { fid := 7, flow := exFlowB, direction := .Output,
    reference_entity := some 0, is_background := false, balance_flow := false,
    conserved_quantity := none,
    evs := [(.cached, 1), (.observed, 0), (.str "a", 2), (.str "b", 3),
      (.tup ["a", "b"], 5)],
    termDefault := nullTermination exFlowB .Output, termScen := [],
    children := [] }

/-- A non-root fragment with exchange values stored under `"a"` and `"b"`
only. -/
def fragAB : Fragment :=
  { fid := 8, flow := exFlowB, direction := .Output,
    reference_entity := some 0, is_background := false, balance_flow := false,
    conserved_quantity := none,
    evs := [(.cached, 1), (.observed, 0), (.str "a", 2), (.str "b", 3)],
    termDefault := nullTermination exFlowB .Output, termScen := [],
    children := [] }

/-- A root fragment with cached exchange value `2`. -/
def rootTwo : Fragment := mkFragment 3 exFlowB .Output none 2 false false []

deriving instance DecidableEq for Except

/-- Inversion for a successful `Except` bind. -/
theorem exceptBindOk {ε α β : Type} {e : Except ε α} {k : α → Except ε β}
    {v : β} (h : e.bind k = .ok v) : ∃ a, e = .ok a ∧ k a = .ok v := by
  cases e with
  | error x => simp [Except.bind] at h
  | ok a => exact ⟨a, rfl, h⟩

/-- C3, counterexample part: for the root fragment `rootTwo`, whose stored
exchange value is `2`, the entry node weight computed by `traversal_entry`
is `2` — the exchange value itself — and not `1/2` as the claim states for
root nodes. -/
theorem entry_weight_counterexample :
    rootTwo.reference_entity = none ∧
    exchange_value rootTwo .noScen false = .ok 2 ∧
    travEntryInWt rootTwo .noScen false = .ok 2 ∧
    (2 : ℚ) ≠ 1 / 2 := by
  refine ⟨rfl, by decide, by decide, by norm_num⟩

/-- C3, amended: `traversal_entry` hands the recursive step the resolved
exchange value itself for a root fragment (no parent), and its reciprocal
`1/ev` for a non-root fragment (a zero value there is a
`ZeroDivisionError`). -/
theorem entry_weight_root_direct_inverse (f : Fragment) (scenario : Scenario)
    (observed : Bool) (ev : ℚ)
    (hev : exchange_value f scenario observed = .ok ev) :
    (f.reference_entity = none →
      travEntryInWt f scenario observed = .ok ev) ∧
    (f.reference_entity ≠ none → ev ≠ 0 →
      travEntryInWt f scenario observed = .ok (1 / ev)) := by
  constructor
  · intro hroot
    simp [travEntryInWt, hroot, hev]
  · intro hnroot hnz
    match hre : f.reference_entity with
    | none => exact absurd hre hnroot
    | some p =>
      simp [travEntryInWt, hre, hev, bind, Except.bind, hnz, pure, Except.pure]

/-- Witness for `entry_weight_root_direct_inverse` at the non-root fragment
`fragAB` (stored value `2` under scenario `"a"`). -/
theorem entry_weight_root_direct_inverse_witness :
    travEntryInWt fragAB (.str "a") false = .ok (1 / 2) :=
  (entry_weight_root_direct_inverse fragAB (.str "a") false 2
    (by decide)).2 (by decide) (by norm_num)

/-- A second present member (with one already accumulated) conflicts. -/
theorem tupMatchLoop_acc_conflict (present : String → Bool) :
    ∀ (l : List String) (s : String),
      1 ≤ l.countP present →
      tupMatchLoop present l (some s) = .error .scenarioConflict := by
  intro l
  induction l with
  | nil => intro s h; simp at h
  | cons a rest ih =>
    intro s h
    by_cases ha : present a
    · simp [tupMatchLoop, ha]
    · rw [List.countP_cons_of_neg _ _ (by simp [ha])] at h
      simp [tupMatchLoop, ha, ih s h]

/-- Two or more present members conflict. -/
theorem tupMatchLoop_two_conflict (present : String → Bool) :
    ∀ (l : List String),
      2 ≤ l.countP present →
      tupMatchLoop present l none = .error .scenarioConflict := by
  intro l
  induction l with
  | nil => intro h; simp at h
  | cons a rest ih =>
    intro h
    by_cases ha : present a
    · rw [List.countP_cons_of_pos _ _ (by simp [ha])] at h
      simp [tupMatchLoop, ha,
        tupMatchLoop_acc_conflict present rest a (by omega)]
    · rw [List.countP_cons_of_neg _ _ (by simp [ha])] at h
      simp [tupMatchLoop, ha, ih h]

/-- No present member: the accumulator survives. -/
theorem tupMatchLoop_none (present : String → Bool) :
    ∀ (l : List String) (acc : Option String),
      l.countP present = 0 →
      tupMatchLoop present l acc = .ok acc := by
  intro l
  induction l with
  | nil => intro acc _; simp [tupMatchLoop]
  | cons a rest ih =>
    intro acc h
    by_cases ha : present a
    · rw [List.countP_cons_of_pos _ _ (by simp [ha])] at h; omega
    · rw [List.countP_cons_of_neg _ _ (by simp [ha])] at h
      simp [tupMatchLoop, ha, ih acc h]

/-- Exactly one present member resolves to that member. -/
theorem tupMatchLoop_unique (present : String → Bool) :
    ∀ (l₁ : List String) (s : String) (l₂ : List String),
      l₁.countP present = 0 → l₂.countP present = 0 → present s = true →
      tupMatchLoop present (l₁ ++ s :: l₂) none = .ok (some s) := by
  intro l₁
  induction l₁ with
  | nil =>
    intro s l₂ _ h₂ hs
    simp [tupMatchLoop, hs, tupMatchLoop_none present l₂ (some s) h₂]
  | cons a rest ih =>
    intro s l₂ h₁ h₂ hs
    by_cases ha : present a
    · rw [List.countP_cons_of_pos _ _ (by simp [ha])] at h₁; omega
    · rw [List.countP_cons_of_neg _ _ (by simp [ha])] at h₁
      simp only [List.cons_append, tupMatchLoop, ha, if_false]
      exact ih s l₂ h₁ h₂ hs

/-- C4, counterexample part: with exchange values stored under `"a"`, `"b"`
and under the tuple key `("a","b")` itself, resolving the scenario tuple
`("a","b")` does not raise `ScenarioConflict` — it returns the tuple key's
own stored value (`5`) — even though more than one member of the tuple
matches a stored key. -/
theorem scenario_tuple_stored_counterexample :
    (fragABT.evs.lookup (.str "a")).isSome = true ∧
    (fragABT.evs.lookup (.str "b")).isSome = true ∧
    exchange_value fragABT (.tup ["a", "b"]) false = .ok 5 ∧
    match_scenario_ev fragABT.evs (.tup ["a", "b"]) ≠
      .error .scenarioConflict := by
  refine ⟨by decide, by decide, by decide, by decide⟩

/-- C4, amended: for a scenario tuple, (a) if the tuple itself is not a
stored exchange-value key and two or more of its members are, exchange-value
resolution raises `ScenarioConflict`; (b) if the tuple itself is not stored
and exactly one member is, that member's stored value is returned (subject
only to the reference-node zero fallback); (c) termination resolution (whose
dict never holds tuple keys, `terminate` refusing them) raises
`ScenarioConflict` whenever two or more members match stored termination
keys. -/
theorem scenario_conflict_resolution (f : Fragment) (l : List String) :
    ((f.evs.lookup (.tup l)).isNone →
      2 ≤ l.countP (fun s => (f.evs.lookup (.str s)).isSome) →
      match_scenario_ev f.evs (.tup l) = .error .scenarioConflict) ∧
    (∀ l₁ s l₂ v (observed : Bool), l = l₁ ++ s :: l₂ →
      (f.evs.lookup (.tup l)).isNone →
      l₁.countP (fun x => (f.evs.lookup (.str x)).isSome) = 0 →
      l₂.countP (fun x => (f.evs.lookup (.str x)).isSome) = 0 →
      f.evs.lookup (.str s) = some v →
      match_scenario_ev f.evs (.tup l) = .ok (some (.str s)) ∧
      exchange_value f (.tup l) observed =
        .ok (if v = 0 ∧ f.reference_entity = none then cached_ev f else v)) ∧
    (2 ≤ l.countP (fun s => (f.termScen.lookup s).isSome) →
      match_scenario_term f (.tup l) = .error .scenarioConflict) := by
  refine ⟨?_, ?_, ?_⟩
  · intro hns hc
    simp [match_scenario_ev, Option.isNone_iff_eq_none.mp hns, matchTupEv,
      tupMatchLoop_two_conflict _ l hc, Except.map]
  · intro l₁ s l₂ v observed hl hns h₁ h₂ hv
    subst hl
    have hns' := Option.isNone_iff_eq_none.mp hns
    have hm : match_scenario_ev f.evs (.tup (l₁ ++ s :: l₂)) =
        .ok (some (.str s)) := by
      simp [match_scenario_ev, hns', matchTupEv, Except.map,
        tupMatchLoop_unique _ l₁ s l₂ h₁ h₂ (by simp [hv])]
    refine ⟨hm, ?_⟩
    simp [exchange_value, exchange_value_base, hm, bind, Except.bind,
      lookupScenEv, hns', hv, pure, Except.pure]
  · intro hc
    simp only [match_scenario_term, matchTupTerm]
    exact tupMatchLoop_two_conflict _ l hc

/-- A non-root fragment with terminations stored under scenario keys `"a"`
and `"b"`. -/
def fragTermAB : Fragment :=
  { fid := 9, flow := exFlowB, direction := .Output,
    reference_entity := some 0, is_background := false, balance_flow := false,
    conserved_quantity := none, evs := [(.cached, 1), (.observed, 0)],
    termDefault := nullTermination exFlowB .Output,
    termScen := [("a", nullTermination exFlowB .Output),
      ("b", nullTermination exFlowB .Output)],
    children := [] }

/-- Witness for `scenario_conflict_resolution`: with values stored under
`"a"` and `"b"` only, the tuple `("a","b")` conflicts, `("a","c")` resolves
to the value stored under `"a"`, and a termination dict holding `"a"` and
`"b"` conflicts on `("a","b")`. -/
theorem scenario_conflict_resolution_witness :
    match_scenario_ev fragAB.evs (.tup ["a", "b"]) =
      .error .scenarioConflict ∧
    exchange_value fragAB (.tup ["a", "c"]) false = .ok 2 ∧
    match_scenario_term fragTermAB (.tup ["a", "b"]) =
      .error .scenarioConflict := by
  refine ⟨(scenario_conflict_resolution fragAB ["a", "b"]).1 (by decide)
    (by decide), ?_, (scenario_conflict_resolution fragTermAB ["a", "b"]).2.2
    (by decide)⟩
  have h := ((scenario_conflict_resolution fragAB ["a", "c"]).2.1
    [] "a" ["c"] 2 false rfl (by decide) (by decide) (by decide)
    (by decide)).2
  simpa using h

/-- `_match_scenario_ev` reporting no match implies the scenario itself is
not a stored key. -/
theorem match_none_lookup (evs : List (EvKey × ℚ)) (scenario : Scenario)
    (h : match_scenario_ev evs scenario = .ok none) :
    lookupScenEv evs scenario = none := by
  match scenario with
  | .noScen => rfl
  | .str s =>
    simp only [match_scenario_ev] at h
    by_cases hs : (evs.lookup (.str s)).isSome
    · simp [hs] at h
    · simpa [lookupScenEv] using Option.not_isSome_iff_eq_none.mp hs
  | .tup l =>
    simp only [match_scenario_ev] at h
    by_cases hs : (evs.lookup (.tup l)).isSome
    · simp [hs] at h
    · simpa [lookupScenEv] using Option.not_isSome_iff_eq_none.mp hs

/-- C5: `exchange_value`'s decision chain.  (i) When no stored key matches
the scenario, the result is the observed magnitude if the node is a balance
flow or `observed=True`, else the cached magnitude — in both cases subject to
the root fallback; (ii) whenever the returned value is `0` for a node with no
parent, the cached magnitude itself is `0` (the zero fallback fired). -/
theorem exchange_value_decision_chain (f : Fragment) (scenario : Scenario)
    (observed : Bool) :
    (match_scenario_ev f.evs scenario = .ok none →
      exchange_value f scenario observed =
        .ok (if (if observed || f.balance_flow then observed_ev f
              else cached_ev f) = 0 ∧ f.reference_entity = none
            then cached_ev f
            else if observed || f.balance_flow then observed_ev f
              else cached_ev f)) ∧
    (∀ v, exchange_value f scenario observed = .ok v →
      f.reference_entity = none → v = 0 → cached_ev f = 0) := by
  constructor
  · intro hm
    simp only [exchange_value, exchange_value_base, hm, bind, Except.bind,
      match_none_lookup f.evs scenario hm, pure, Except.pure]
  · intro v hv hroot hv0
    simp only [exchange_value, bind, Except.bind] at hv
    cases hm : match_scenario_ev f.evs scenario with
    | error e => simp [hm] at hv
    | ok mt =>
      simp only [hm, pure, Except.pure, Except.ok.injEq] at hv
      split at hv
      · exact hv.trans hv0
      · rename_i hcond
        exact absurd ⟨hv.trans hv0, hroot⟩ hcond

/-- A root fragment whose cached and observed slots are both `0`. -/
def rootZero : Fragment := mkFragment 4 exFlowB .Output none 0 false false []

/-- Witness for `exchange_value_decision_chain`: part (i) at `fragAB` under
scenario `None` (no match, not a balance flow, `observed=False` ⇒ cached
value `1`), part (ii) at `rootZero` (returned `0` at a root ⇒ cached is
`0`). -/
theorem exchange_value_decision_chain_witness :
    exchange_value fragAB .noScen false = .ok 1 ∧ cached_ev rootZero = 0 := by
  constructor
  · have h := (exchange_value_decision_chain fragAB .noScen false).1
      (by decide)
    simpa using h
  · exact (exchange_value_decision_chain rootZero .noScen false).2 0
      (by decide) (by decide) (by decide)

theorem traverseStep_lead (tr : TravRec) (topF : World → Nat → Except TravErr Nat)
    (w : World) (fid : Nat) (up : ℚ) (scen : Scenario) (obs : Bool)
    (seen : List Nat) (cq : Option Nat) (f : Fragment) (ev : ℚ)
    (ffs : List FragmentFlow) (cv : Option ℚ) (w2 : World)
    (hf : w.frags fid = some f)
    (hev : entryEv f scen obs none = .ok ev)
    (hbg : ∀ t j tf, termination f scen = .ok t →
      t.termNode = some (.frag j) → w.frags j = some tf → j ≠ fid →
      tf.is_background = false)
    (hok : traverseStep tr topF w fid up scen obs seen cq none =
      .ok (ffs, cv, w2)) :
    ∃ h rest, ffs = h :: rest ∧ h.magnitude = up * ev ∧
      h.fragment = .frag fid := by
  unfold traverseStep at hok
  simp only [hf, hev, bind, Except.bind, pure, Except.pure] at hok
  cases hcc : conservedCalc f cq ev with
  | error e => simp only [hcc] at hok; exact Except.noConfusion hok
  | ok ccv =>
  simp only [hcc] at hok
  cases ht : termination f scen with
  | error e => simp only [ht] at hok; exact Except.noConfusion hok
  | ok t =>
  simp only [ht] at hok
  cases hnw : node_weight f (up * ev) t with
  | error e => simp only [hnw] at hok; exact Except.noConfusion hok
  | ok nwv =>
  simp only [hnw] at hok
  by_cases hstop : (t.is_null = true ∨ f.is_background = true ∨ up * ev = 0)
  · rw [if_pos hstop] at hok
    simp only [Except.ok.injEq, Prod.mk.injEq] at hok
    exact ⟨_, _, hok.1.symm, rfl, rfl⟩
  · rw [if_neg hstop] at hok
    cases hrs : rootSeenCheck f seen with
    | error e => simp only [hrs] at hok; exact Except.noConfusion hok
    | ok seen' =>
    simp only [hrs] at hok
    by_cases hfg : (t.is_fg fid = true ∨ t.isProcessTarget = true)
    · rw [if_pos hfg] at hok
      repeat' (split at hok)
      all_goals first
        | exact Except.noConfusion hok
        | (simp only [Except.ok.injEq, Prod.mk.injEq] at hok
           exact ⟨_, _, hok.1.symm, rfl, rfl⟩)
    · rw [if_neg hfg] at hok
      cases htn : t.termNode with
      | none => simp only [htn] at hok; exact Except.noConfusion hok
      | some tt =>
      cases tt with
      | process pid => simp only [htn] at hok; exact Except.noConfusion hok
      | frag tfid =>
      simp only [htn] at hok
      cases hwf : w.frags tfid with
      | none => simp only [hwf] at hok; exact Except.noConfusion hok
      | some tf =>
      simp only [hwf] at hok
      have hbgf : tf.is_background = false := by
        refine hbg t tfid tf ht htn hwf ?_
        intro hje
        exact hfg (Or.inl (by simp [FlowTermination.is_fg, htn, hje]))
      simp only [hbgf, Bool.false_eq_true, if_false] at hok
      repeat' (split at hok)
      all_goals first
        | exact Except.noConfusion hok
        | (simp only [Except.ok.injEq, Prod.mk.injEq] at hok
           exact ⟨_, _, hok.1.symm, rfl, rfl⟩)

/-- The one-fragment world holding only `rootTwo` (uuid 3). -/
def soloWorld : World := ⟨fun i => if i = 3 then some rootTwo else none⟩

/-- C1, counterexample part: `bgDelegator` is a reference (root) fragment
(`reference_entity` is `None`) whose resolved exchange value is `1 ≠ 0`, yet
the lead record of its successful `traversal_entry` has magnitude `3/2`, not
`1`: its termination targets the background fragment `bgTarget`, and the
background-delegation branch of `traverse` replaces the delegating node's
own lead record with the target's re-identified lead record, whose magnitude
is the delegated node weight times the target's entry exchange value. -/
theorem lead_magnitude_bg_counterexample :
    bgDelegator.reference_entity = none ∧
    exchange_value bgDelegator .noScen false = .ok 1 ∧
    (traversal_entry 3 bgWorld 0 .noScen false).map
      (fun p => p.1.head?.map (fun z => z.magnitude)) = .ok (some (3 / 2)) := by
  refine ⟨rfl, ?_, ?_⟩
  · norm_num [exchange_value, exchange_value_base, match_scenario_ev,
      lookupScenEv, cached_ev, observed_ev, bgDelegator, bind, Except.bind,
      pure, Except.pure]
  · have e1 : traverse 3 = traverseStep (traverse 2) (topFrag 3) := rfl
    have e2 : traverse 2 = traverseStep (traverse 1) (topFrag 2) := rfl
    have e3 : traverse 1 = traverseStep (traverse 0) (topFrag 1) := rfl
    norm_num [traversal_entry, travEntryInWt, e1, e2, e3, traverseStep,
      entryEv, exchange_value, exchange_value_base, match_scenario_ev,
      lookupScenEv, cached_ev, observed_ev, termination, match_scenario_term,
      conservedCalc, node_weight, node_weight_multiplier, flow_conversion,
      rootSeenCheck, initialStock, childLoop, subChildLoop, bgWorld,
      bgDelegator, bgTarget, bgDelegTerm, exFlowA, exFlowB, nullTermination,
      comp_dir, FlowTermination.is_null, FlowTermination.is_fg,
      FlowTermination.isProcessTarget, cache_balance_ev, World.setFrag,
      topFrag, Except.map, bind, Except.bind, pure, Except.pure]

/-- C1, amended: for a reference (root) fragment whose resolved exchange
value for the scenario is nonzero, and whose effective termination does not
delegate to a background-flagged fragment, the lead `FragmentFlow` record of
a successful `traversal_entry` has magnitude `1` and carries the root's own
identity: the entry weight is the resolved `ev`, the root's own entry
exchange value inside `traverse` is `1/ev`, and the lead magnitude is their
product `ev * (1/ev) = 1`. -/
theorem lead_magnitude_one (fuel : Nat) (w : World) (fid : Nat)
    (scen : Scenario) (obs : Bool) (f : Fragment) (ev : ℚ)
    (ffs : List FragmentFlow) (w2 : World)
    (hf : w.frags fid = some f)
    (hroot : f.reference_entity = none)
    (hev : exchange_value f scen obs = .ok ev)
    (hne : ev ≠ 0)
    (hbg : ∀ t j tf, termination f scen = .ok t →
      t.termNode = some (.frag j) → w.frags j = some tf → j ≠ fid →
      tf.is_background = false)
    (hok : traversal_entry (fuel + 1) w fid scen obs = .ok (ffs, w2)) :
    ∃ h rest, ffs = h :: rest ∧ h.magnitude = 1 ∧ h.fragment = .frag fid := by
  unfold traversal_entry at hok
  simp only [hf, bind, Except.bind, pure, Except.pure] at hok
  have hin : travEntryInWt f scen obs = .ok ev := by
    simp [travEntryInWt, hroot, hev]
  simp only [hin] at hok
  cases hT : traverse (fuel + 1) w fid ev scen obs [] none none with
  | error e => simp only [hT] at hok; exact Except.noConfusion hok
  | ok r =>
    obtain ⟨r1, cv, r3⟩ := r
    simp only [hT, Except.ok.injEq, Prod.mk.injEq] at hok
    have hEv : entryEv f scen obs none = .ok (1 / ev) := by
      simp [entryEv, hroot, hev, hne, bind, Except.bind, pure, Except.pure]
    have hT' : traverseStep (traverse fuel) (topFrag (fuel + 1)) w fid ev
        scen obs [] none none = .ok (r1, cv, r3) := hT
    obtain ⟨h, rest, hsplit, hmag, hfr⟩ :=
      traverseStep_lead (traverse fuel) (topFrag (fuel + 1)) w fid ev scen
        obs [] none f (1 / ev) r1 cv r3 hf hEv hbg hT'
    have hffs : r1 = ffs := hok.1
    refine ⟨h, rest, hffs ▸ hsplit, ?_, hfr⟩
    rw [hmag, mul_one_div, div_self hne]

/-- Witness for `lead_magnitude_one`: the null-terminated root `rootTwo`
(stored exchange value `2`) traversed in `soloWorld` yields a lead record of
magnitude `1`. -/
theorem lead_magnitude_one_witness :
    (traversal_entry 1 soloWorld 3 .noScen false).map
      (fun p => p.1.head?.map (fun z => z.magnitude)) = .ok (some 1) := by
  rcases hE : traversal_entry 1 soloWorld 3 .noScen false with e | p
  · have e3 : traverse 1 = traverseStep (traverse 0) (topFrag 1) := rfl
    have hs : traversal_entry 1 soloWorld 3 .noScen false ≠ .error e := by
      norm_num [traversal_entry, travEntryInWt, e3, traverseStep, entryEv,
        exchange_value, exchange_value_base, match_scenario_ev, lookupScenEv,
        cached_ev, observed_ev, termination, match_scenario_term,
        conservedCalc, node_weight, node_weight_multiplier, flow_conversion,
        rootSeenCheck, initialStock, childLoop, subChildLoop, soloWorld,
        rootTwo, mkFragment, exFlowB, nullTermination, comp_dir,
        FlowTermination.is_null, FlowTermination.is_fg,
        FlowTermination.isProcessTarget, topFrag, bind, Except.bind, pure,
        Except.pure]
      exact fun hcon => Except.noConfusion hcon
    exact absurd hE hs
  · obtain ⟨ffs, w2⟩ := p
    obtain ⟨h, rest, hsplit, hmag, hfr⟩ :=
      lead_magnitude_one 0 soloWorld 3 .noScen false rootTwo 2 ffs w2
        rfl rfl
        (by norm_num [exchange_value, exchange_value_base, match_scenario_ev,
          lookupScenEv, cached_ev, observed_ev, rootTwo, mkFragment, exFlowB,
          bind, Except.bind, pure, Except.pure])
        (by norm_num)
        (by
          intro t j tf ht htn hwf hne
          have h0 : termination rootTwo .noScen = .ok rootTwo.termDefault :=
            rfl
          have ht' : t = rootTwo.termDefault :=
            (Except.ok.inj (h0.symm.trans ht)).symm
          rw [ht'] at htn
          exact Option.noConfusion htn)
        hE
    simp [hE, Except.map, hsplit, hmag]

/-- C8: when a node's termination for the scenario targets a
background-flagged fragment, `traverse` delegates entirely to the target's
own traversal at the current node weight (fresh frags-seen set, no
conservation context), re-assigns the resulting lead record's fragment
identity to the delegating node, and returns that result set together with
the delegating node's own conserved value — the delegating node's children
are never expanded. -/
theorem background_delegation (fuel : Nat) (w : World) (fid tfid : Nat)
    (up : ℚ) (scen : Scenario) (obs : Bool) (seen : List Nat)
    (cq : Option Nat) (f tf : Fragment) (ev : ℚ) (ccv : Option ℚ × Bool)
    (t : FlowTermination) (nwv : ℚ)
    (hf : w.frags fid = some f)
    (hfid : f.fid = fid)
    (hev : entryEv f scen obs none = .ok ev)
    (hcc : conservedCalc f cq ev = .ok ccv)
    (ht : termination f scen = .ok t)
    (hnw : node_weight f (up * ev) t = .ok nwv)
    (htn : t.termNode = some (.frag tfid))
    (hnfg : tfid ≠ fid)
    (hwf : w.frags tfid = some tf)
    (hbg : tf.is_background = true)
    (hsbg : f.is_background = false)
    (hmag : up * ev ≠ 0)
    (hseen : f.reference_entity = none → fid ∉ seen) :
    traverse (fuel + 1) w fid up scen obs seen cq none =
      (do
        let bres ← traverse fuel w tfid nwv scen obs [] none none
        match bres.1 with
        | [] => .error .indexError
        | b0 :: bs =>
          pure ({ b0 with fragment := .frag fid } :: bs, ccv.1, bres.2.2)) := by
  rw [show traverse (fuel + 1) = traverseStep (traverse fuel)
    (topFrag (fuel + 1)) from rfl]
  unfold traverseStep
  simp only [hf, hev, hcc, ht, hnw, bind, Except.bind, pure, Except.pure]
  have hnull : t.is_null = false := by simp [FlowTermination.is_null, htn]
  have hfg : t.is_fg fid = false := by
    simp [FlowTermination.is_fg, htn, hnfg]
  have hpt : t.isProcessTarget = false := by
    simp [FlowTermination.isProcessTarget, htn]
  rw [if_neg (by simp [hnull, hsbg, hmag])]
  have hrs : rootSeenCheck f seen =
      .ok (match f.reference_entity with
        | none => fid :: seen
        | some _ => seen) := by
    cases hre : f.reference_entity with
    | none =>
      have hni := hseen hre
      simp [rootSeenCheck, hre, hfid, hni]
    | some p => simp [rootSeenCheck, hre]
  simp only [hrs]
  rw [if_neg (by simp [hfg, hpt])]
  simp only [htn, hwf, hbg, eq_self_iff_true, if_true]

/-- Witness for `background_delegation`: in `bgWorld`, the root `0`
(node weight `3`) delegates to the background fragment `1`. -/
theorem background_delegation_witness :
    traverse 3 bgWorld 0 1 .noScen false [] none none =
      (do
        let bres ← traverse 2 bgWorld 1 3 .noScen false [] none none
        match bres.1 with
        | [] => .error .indexError
        | b0 :: bs =>
          pure ({ b0 with fragment := .frag 0 } :: bs, none, bres.2.2)) := by
  have h := background_delegation 2 bgWorld 0 1 1 .noScen false [] none
    bgDelegator bgTarget 1 (none, false) bgDelegTerm 3 rfl rfl
    (by norm_num [entryEv, exchange_value, exchange_value_base,
      match_scenario_ev, lookupScenEv, cached_ev, observed_ev, bgDelegator,
      bind, Except.bind, pure, Except.pure])
    rfl rfl
    (by norm_num [node_weight, node_weight_multiplier, flow_conversion,
      bgDelegator, bgDelegTerm, exFlowA, exFlowB, FlowTermination.is_null,
      bind, Except.bind, pure, Except.pure])
    rfl (by decide) rfl rfl rfl (by norm_num) (by intro _h; simp)
  simpa using h

/-- C10: a fragment constructed with `background=True` has its parent forced
to `None`; and any successful traversal of a background-flagged fragment
returns exactly one `FragmentFlow` record — the node's own lead record —
regardless of its termination, magnitude, children, or the traversal
arguments. -/
theorem background_singleton :
    (∀ u (fl : Flow) d (p : Option Nat) (e : ℚ) bf (ch : List Nat),
      (mkFragment u fl d p e bf true ch).reference_entity = none) ∧
    (∀ fuel (w : World) fid up scen obs seen cq bal f ffs cv w2,
      w.frags fid = some f → f.is_background = true →
      traverse fuel w fid up scen obs seen cq bal = .ok (ffs, cv, w2) →
      ∃ m nw t c, ffs = [⟨.frag fid, m, nw, t, c⟩]) := by
  constructor
  · intro u fl d p e bf ch; rfl
  · intro fuel w fid up scen obs seen cq bal f ffs cv w2 hf hbgt hok
    cases fuel with
    | zero => simp [traverse] at hok
    | succ n =>
      rw [show traverse (n + 1) = traverseStep (traverse n)
        (topFrag (n + 1)) from rfl] at hok
      unfold traverseStep at hok
      simp only [hf, bind, Except.bind, pure, Except.pure] at hok
      cases bal with
      | none =>
        cases hev : entryEv f scen obs none with
        | error e => simp only [hev] at hok; exact Except.noConfusion hok
        | ok ev =>
        simp only [hev] at hok
        cases hcc : conservedCalc f cq ev with
        | error e => simp only [hcc] at hok; exact Except.noConfusion hok
        | ok ccv =>
        simp only [hcc] at hok
        cases ht : termination f scen with
        | error e => simp only [ht] at hok; exact Except.noConfusion hok
        | ok t =>
        simp only [ht] at hok
        cases hnw : node_weight f (up * ev) t with
        | error e => simp only [hnw] at hok; exact Except.noConfusion hok
        | ok nwv =>
        simp only [hnw] at hok
        rw [if_pos (Or.inr (Or.inl hbgt))] at hok
        simp only [Except.ok.injEq, Prod.mk.injEq] at hok
        exact ⟨_, _, _, _, hok.1.symm⟩
      | some b =>
        cases hev : entryEv f scen obs (some b) with
        | error e => simp only [hev] at hok; exact Except.noConfusion hok
        | ok ev =>
        simp only [hev] at hok
        cases hcc : conservedCalc (cache_balance_ev f b scen) cq ev with
        | error e => simp only [hcc] at hok; exact Except.noConfusion hok
        | ok ccv =>
        simp only [hcc] at hok
        cases ht : termination (cache_balance_ev f b scen) scen with
        | error e => simp only [ht] at hok; exact Except.noConfusion hok
        | ok t =>
        simp only [ht] at hok
        cases hnw : node_weight (cache_balance_ev f b scen) (up * ev) t with
        | error e => simp only [hnw] at hok; exact Except.noConfusion hok
        | ok nwv =>
        simp only [hnw] at hok
        rw [if_pos (Or.inr (Or.inl
          (by simpa [cache_balance_ev] using hbgt)))] at hok
        simp only [Except.ok.injEq, Prod.mk.injEq] at hok
        exact ⟨_, _, _, _, hok.1.symm⟩

/-- A process termination for `bgRich`. -/
def bgRichTerm : FlowTermination :=
  { termNode := some (.process 99), termFlow := exFlowB,
    direction := .Input, descend := true, inboundEv := 1 }

/-- A background fragment with a process termination and a (never-expanded)
child, to exercise `background_singleton` at a nontrivial input. -/
def bgRich : Fragment :=
  { fid := 2, flow := exFlowA, direction := .Output,
    reference_entity := none, is_background := true, balance_flow := false,
    conserved_quantity := none, evs := [(.cached, 1), (.observed, 0)],
    termDefault := bgRichTerm, termScen := [], children := [0] }

/-- `bgWorld` extended with the background fragment `bgRich` (uuid 2). -/
def bgWorld2 : World :=
  ⟨fun i => if i = 2 then some bgRich else bgWorld.frags i⟩

/-- Witness for `background_singleton`: the constructor part at concrete
arguments, and the traversal part at the process-terminated background
fragment `bgRich`, which has a child, traversed directly. -/
theorem background_singleton_witness :
    (mkFragment 5 exFlowB .Input (some 7) 2 false true []).reference_entity =
      none ∧
    ∃ ffs cv w2, traverse 4 bgWorld2 2 1 .noScen false [] none none =
      .ok (ffs, cv, w2) ∧ ∃ m nw t c, ffs = [⟨.frag 2, m, nw, t, c⟩] := by
  refine ⟨background_singleton.1 5 exFlowB .Input (some 7) 2 false [], ?_⟩
  rcases hE : traverse 4 bgWorld2 2 1 .noScen false [] none none with e | p
  · have hs : (traverse 4 bgWorld2 2 1 .noScen false [] none
        none).toOption.isSome = true := rfl
    rw [hE] at hs
    simp [Except.toOption] at hs
  · obtain ⟨ffs, cv, w2⟩ := p
    exact ⟨ffs, cv, w2, rfl,
      background_singleton.2 4 bgWorld2 2 1 .noScen false [] none none
        bgRich ffs cv w2 rfl rfl hE⟩

/-- C7: (i) re-entering a reference (root) fragment whose uuid is already in
the current branch's frags-seen set raises `InvalidParentChild` (given that
the node is not itself stopped earlier by a null termination, background
flag, or zero magnitude); (ii) concretely, the structurally cyclic fragment
graph `cycleWorld` (`0 → 1 → 0` through sub-fragment terminations) raises
`InvalidParentChild` at every sufficient fuel rather than looping.  The seen
set is carried per recursive branch (a value, copied per child in the
source), threaded through `traverse`. -/
theorem reentry_invalid_parent_child :
    (∀ fuel (w : World) fid up scen obs (seen : List Nat) cq f ev ccv t nwv,
      w.frags fid = some f → f.fid = fid →
      f.reference_entity = none → fid ∈ seen →
      entryEv f scen obs none = .ok ev →
      conservedCalc f cq ev = .ok ccv →
      termination f scen = .ok t →
      node_weight f (up * ev) t = .ok nwv →
      t.is_null = false → f.is_background = false → up * ev ≠ 0 →
      traverse (fuel + 1) w fid up scen obs seen cq none =
        .error .invalidParentChild) ∧
    (∀ n, traversal_entry (n + 3) cycleWorld 0 .noScen false =
      .error .invalidParentChild) := by
  constructor
  · intro fuel w fid up scen obs seen cq f ev ccv t nwv hf hfid hroot hin
      hev hcc ht hnw hnn hsbg hmag
    rw [show traverse (fuel + 1) = traverseStep (traverse fuel)
      (topFrag (fuel + 1)) from rfl]
    unfold traverseStep
    simp only [hf, hev, hcc, ht, hnw, bind, Except.bind, pure, Except.pure]
    rw [if_neg (by simp [hnn, hsbg, hmag])]
    simp [rootSeenCheck, hroot, hfid, hin]
  · intro n
    have e1 : traverse (n + 3) = traverseStep (traverse (n + 2))
      (topFrag (n + 3)) := rfl
    have e2 : traverse (n + 2) = traverseStep (traverse (n + 1))
      (topFrag (n + 2)) := rfl
    have e3 : traverse (n + 1) = traverseStep (traverse n)
      (topFrag (n + 1)) := rfl
    norm_num [traversal_entry, travEntryInWt, e1, e2, e3, traverseStep,
      entryEv, exchange_value, exchange_value_base, match_scenario_ev,
      lookupScenEv, cached_ev, observed_ev, termination, match_scenario_term,
      conservedCalc, node_weight, node_weight_multiplier, flow_conversion,
      rootSeenCheck, initialStock, childLoop, subChildLoop, cycleWorld,
      cycFrag0, cycFrag1, cycTerm0, cycTerm1, cycFlowA, cycFlowB,
      nullTermination, comp_dir, FlowTermination.is_null,
      FlowTermination.is_fg, FlowTermination.isProcessTarget,
      cache_balance_ev, World.setFrag, topFrag, bind, Except.bind, pure,
      Except.pure]

/-- Constructor-level `BEq` evaluations for `EvKey`, for unfolding
`List.lookup` on exchange-value stores by `simp`. -/
@[simp] theorem evkey_beq_cc : (EvKey.cached == EvKey.cached) = true := by
  decide

/-- See `evkey_beq_cc`. -/
@[simp] theorem evkey_beq_oo : (EvKey.observed == EvKey.observed) = true := by
  decide

/-- See `evkey_beq_cc`. -/
@[simp] theorem evkey_beq_oc : (EvKey.observed == EvKey.cached) = false := by
  decide

/-- See `evkey_beq_cc`. -/
@[simp] theorem evkey_beq_co : (EvKey.cached == EvKey.observed) = false := by
  decide

/-- The conserved quantity used by the conservation test family. -/
def consQ : Nat := 777

/-- Parameters of one leaf child of a conserving node: its stored exchange
value, its flow's characterization for the conserved quantity, its
direction, and whether it is the designated balance flow. -/
structure ChildSpec where
  ev : ℚ
  cf : ℚ
  dir : Direction
  isBal : Bool

/-- The flow of a leaf child.  A balance child's flow has the conserved
quantity as its reference quantity (`set_conserved_quantity` defines the
conserved quantity as the balance child's flow's reference entity), with the
reference characterization `1.0` that `LcFlow.__init__` installs; a
non-balance child's flow carries `s.cf` for the conserved quantity. -/
def mkChildFlow (i : Nat) (s : ChildSpec) : Flow :=
  if s.isBal then ⟨1000 + i, consQ, fun q => if q = consQ then 1 else 0⟩
  else ⟨1000 + i, 800 + i,
    fun q => if q = consQ then s.cf else if q = 800 + i then 1 else 0⟩

/-- A leaf child (null default termination, no children) of the conserving
parent `0`. -/
def mkChild (i : Nat) (s : ChildSpec) : Fragment :=
  { fid := i, flow := mkChildFlow i s, direction := s.dir,
    reference_entity := some 0, is_background := false,
    balance_flow := s.isBal, conserved_quantity := none,
    evs := [(.cached, s.ev), (.observed, 0)],
    termDefault := nullTermination (mkChildFlow i s) s.dir,
    termScen := [], children := [] }

/-- The conserving parent's flow: reference quantity `555` (factor `1`), and
factor `cfn` for the conserved quantity. -/
def consParentFlow (cfn : ℚ) : Flow :=
  ⟨999, 555, fun q => if q = 555 then 1 else if q = consQ then cfn else 0⟩

/-- The foreground termination of the conserving parent (target is the
fragment itself; `_set_inbound_ev` pins a foreground node's inbound exchange
value at `1.0` and `set_term_flow` picks the fragment's own flow). -/
def consParentTerm (dn : Direction) (cfn : ℚ) : FlowTermination :=
  { termNode := some (.frag 0), termFlow := consParentFlow cfn,
    direction := comp_dir dn, descend := true, inboundEv := 1 }

/-- The conserving parent: a reference (root) fragment, foreground
terminated, with conserved quantity `consQ` and `ncs` children (uuids
`1 .. ncs`). -/
def consParent (dn : Direction) (cfn evn : ℚ) (ncs : Nat) : Fragment :=
  { fid := 0, flow := consParentFlow cfn, direction := dn,
    reference_entity := none, is_background := false, balance_flow := false,
    conserved_quantity := some consQ,
    evs := [(.cached, evn), (.observed, 0)],
    termDefault := consParentTerm dn cfn, termScen := [],
    children := List.range' 1 ncs }

/-- The world of a conserving parent with leaf children given by `cs`
(child `i+1` gets spec `cs[i]`). -/
def consWorld (dn : Direction) (cfn evn : ℚ) (cs : List ChildSpec) : World :=
  ⟨fun i => if i = 0 then some (consParent dn cfn evn cs.length)
    else (cs.get? (i - 1)).map (mkChild i)⟩

/-- The lead (and only) record of a non-balance leaf child expanded at node
weight `nw`. -/
def leafRec (nw : ℚ) (i : Nat) (s : ChildSpec) : FragmentFlow :=
  ⟨.frag i, nw * s.ev, nw * s.ev, nullTermination (mkChildFlow i s) s.dir,
    if s.ev * s.cf = 0 then false else true⟩

/-- The signed conserved contribution of a non-balance leaf child (inputs to
the parent positive). -/
def signedCons (s : ChildSpec) : ℚ :=
  if s.dir = .Output then -(s.ev * s.cf) else s.ev * s.cf

/-- A non-balance leaf child's traversal: one record, its conserved
contribution, no state change. -/
theorem leafChild_traverse (m : Nat) (w : World) (i : Nat) (s : ChildSpec)
    (hW : w.frags i = some (mkChild i s)) (hnb : s.isBal = false)
    (nw : ℚ) (seen : List Nat) :
    traverse (m + 1) w i nw .noScen false seen (some consQ) none =
      .ok ([leafRec nw i s],
        some (signedCons s), w) := by
  rw [show traverse (m + 1) = traverseStep (traverse m) (topFrag (m + 1))
    from rfl]
  unfold traverseStep
  have hev : entryEv (mkChild i s) .noScen false none = .ok s.ev := by
    simp [entryEv, mkChild, exchange_value, exchange_value_base,
      match_scenario_ev, lookupScenEv, cached_ev, observed_ev, hnb, bind,
      Except.bind, pure, Except.pure, List.lookup]
  have hcc : conservedCalc (mkChild i s) (some consQ) s.ev =
      .ok (some (signedCons s), if s.ev * s.cf = 0 then false else true) := by
    simp [conservedCalc, mkChild, mkChildFlow, hnb, signedCons, consQ]
  have ht : termination (mkChild i s) .noScen =
      .ok (nullTermination (mkChildFlow i s) s.dir) := rfl
  have hnull : (nullTermination (mkChildFlow i s) s.dir).is_null = true := rfl
  simp [hW, hev, hcc, ht, node_weight, hnull, bind, Except.bind, pure,
    Except.pure, leafRec]

/-- The balance child's traversal in the normal child loop (a conservation
context is active) raises the `BalanceFlowError` control signal before doing
anything else. -/
theorem balChild_raises (m : Nat) (w : World) (i : Nat) (s : ChildSpec)
    (hW : w.frags i = some (mkChild i s)) (hb : s.isBal = true)
    (nw : ℚ) (seen : List Nat) :
    traverse (m + 1) w i nw .noScen false seen (some consQ) none =
      .error .balanceFlowError := by
  rw [show traverse (m + 1) = traverseStep (traverse m) (topFrag (m + 1))
    from rfl]
  unfold traverseStep
  have hev : entryEv (mkChild i s) .noScen false none = .ok 0 := by
    simp [entryEv, mkChild, exchange_value, exchange_value_base,
      match_scenario_ev, lookupScenEv, cached_ev, observed_ev, hb, bind,
      Except.bind, pure, Except.pure, List.lookup]
  have hcc : conservedCalc (mkChild i s) (some consQ) 0 =
      .error .balanceFlowError := by
    simp [conservedCalc, mkChild, hb]
  simp [hW, hev, hcc, bind, Except.bind, pure, Except.pure]

/-- The balance child's deferred traversal with the accumulated deficit
supplied as its forced magnitude: one record at that magnitude, no conserved
contribution, and the deficit memoized into the child's observed slot. -/
theorem balChild_traverse (m : Nat) (w : World) (i : Nat) (s : ChildSpec)
    (hW : w.frags i = some (mkChild i s)) (_hb : s.isBal = true)
    (nw bal : ℚ) (seen : List Nat) :
    traverse (m + 1) w i nw .noScen false seen none (some bal) =
      .ok ([⟨.frag i, nw * bal, nw * bal,
          nullTermination (mkChildFlow i s) s.dir, false⟩], none,
        w.setFrag i (cache_balance_ev (mkChild i s) bal .noScen)) := by
  rw [show traverse (m + 1) = traverseStep (traverse m) (topFrag (m + 1))
    from rfl]
  unfold traverseStep
  have ht : termination (cache_balance_ev (mkChild i s) bal .noScen) .noScen =
      .ok (nullTermination (mkChildFlow i s) s.dir) := rfl
  have hnull : (nullTermination (mkChildFlow i s) s.dir).is_null = true := rfl
  simp [hW, entryEv, conservedCalc, ht, node_weight, hnull, bind,
    Except.bind, pure, Except.pure]

/-- Sequential composition of the foreground/process child loop. -/
theorem childLoop_append (tr : TravRec) (nw : ℚ) (scen : Scenario)
    (obs : Bool) (seen : List Nat) (cq : Option Nat) :
    ∀ (l₁ l₂ : List Nat) (acc : List FragmentFlow) (stock : Option ℚ)
      (balf : Option Nat) (w : World)
      (r : List FragmentFlow × Option ℚ × Option Nat × World),
      childLoop tr nw scen obs seen cq l₁ acc stock balf w = .ok r →
      childLoop tr nw scen obs seen cq (l₁ ++ l₂) acc stock balf w =
        childLoop tr nw scen obs seen cq l₂ r.1 r.2.1 r.2.2.1 r.2.2.2 := by
  intro l₁
  induction l₁ with
  | nil =>
    intro l₂ acc stock balf w r h
    simp only [childLoop, Except.ok.injEq] at h
    subst h
    simp
  | cons c rest ih =>
    intro l₂ acc stock balf w r h
    obtain ⟨ra, rb, rc, rd⟩ := r
    simp only [childLoop, List.cons_append] at h ⊢
    cases htr : tr w c nw scen obs seen cq none with
    | error e =>
      simp only [htr] at h ⊢
      cases e
      case balanceFlowError => exact ih l₂ acc stock (some c) w (ra, rb, rc, rd) h
      all_goals exact Except.noConfusion h
    | ok v =>
      simp only [htr] at h ⊢
      cases hsc : stock with
      | none =>
        cases hcons : v.2.1 with
        | none =>
          simp only [hsc, hcons] at h ⊢
          exact ih l₂ (acc ++ v.1) none balf v.2.2 (ra, rb, rc, rd) h
        | some cv =>
          simp only [hsc, hcons] at h ⊢
          exact Except.noConfusion h
      | some sv =>
        cases hcons : v.2.1 with
        | none =>
          simp only [hsc, hcons] at h ⊢
          exact ih l₂ (acc ++ v.1) (some sv) balf v.2.2 (ra, rb, rc, rd) h
        | some cv =>
          simp only [hsc, hcons] at h ⊢
          exact ih l₂ (acc ++ v.1) (some (sv + cv)) balf v.2.2
            (ra, rb, rc, rd) h

/-- The leaf records of a run of children starting at uuid `start`. -/
def leafRecs (nw : ℚ) : Nat → List ChildSpec → List FragmentFlow
  | _, [] => []
  | i, s :: rest => leafRec nw i s :: leafRecs nw (i + 1) rest

/-- The specs of a run of children stored consecutively from uuid `start`. -/
def SpecsAt (w : World) : Nat → List ChildSpec → Prop
  | _, [] => True
  | i, s :: rest => w.frags i = some (mkChild i s) ∧ SpecsAt w (i + 1) rest

/-- The child loop over a run of non-balance leaf children: their lead
records are appended in order, their signed conserved contributions are
accumulated into the stock, and the balance marker and world are unchanged. -/
theorem childLoop_leaves (m : Nat) (w : World) (nw : ℚ) (seen : List Nat) :
    ∀ (specs : List ChildSpec) (start : Nat) (acc : List FragmentFlow)
      (stock : ℚ) (balf : Option Nat),
      SpecsAt w start specs → (∀ s ∈ specs, s.isBal = false) →
      childLoop (traverse (m + 1)) nw .noScen false seen (some consQ)
        (List.range' start specs.length) acc (some stock) balf w =
      .ok (acc ++ leafRecs nw start specs,
        some (stock + (specs.map signedCons).sum), balf, w) := by
  intro specs
  induction specs with
  | nil =>
    intro start acc stock balf _ _
    simp [childLoop, leafRecs, List.range']
  | cons s rest ih =>
    intro start acc stock balf hat hnb
    obtain ⟨hW, hat'⟩ := hat
    have hs := hnb s (List.mem_cons_self _ _)
    rw [show (s :: rest).length = rest.length + 1 from rfl,
      List.range'_succ]
    simp only [childLoop,
      leafChild_traverse m w start s hW hs nw seen]
    rw [ih (start + 1) (acc ++ [leafRec nw start s]) (stock + signedCons s)
      balf hat' (fun x hx => hnb x (List.mem_cons_of_mem _ hx))]
    simp [leafRecs, add_assoc]

/-- `consWorld` stores the spec run `l` from uuid `j + 1` whenever `cs`
agrees with `l` from index `j`. -/
theorem consWorld_specsAt (dn : Direction) (cfn evn : ℚ)
    (cs : List ChildSpec) :
    ∀ (l : List ChildSpec) (j : Nat),
      (∀ k, k < l.length → cs.get? (j + k) = l.get? k) →
      SpecsAt (consWorld dn cfn evn cs) (j + 1) l := by
  intro l
  induction l with
  | nil => intro j _; trivial
  | cons s rest ih =>
    intro j hk
    constructor
    · have h0 := hk 0 (by simp)
      simp only [Nat.add_zero, List.get?] at h0
      have h0' : cs[j]? = some s := by
        simpa [List.get?_eq_getElem?] using h0
      simp [consWorld, h0']
    · have := ih (j + 1) (fun k hkk => by
        have := hk (k + 1) (by simpa using Nat.succ_lt_succ hkk)
        simpa [Nat.add_assoc, Nat.add_comm 1 k] using this)
      simpa [Nat.add_assoc] using this

/-- The node's own signed opening stock (inputs to self positive: an `Input`
flow w.r.t. the parent is negated), rescaled by the root's inbound exchange
value. -/
def stock0 (dn : Direction) (cfn evn : ℚ) : ℚ :=
  if dn = .Input then -(cfn * evn) else cfn * evn

/-- The forced magnitude handed to the deferred balance child: the
accumulated stock after all non-balance children, negated for an `Input`
balance flow. -/
def balV (dn : Direction) (cfn evn : ℚ) (pre post : List ChildSpec)
    (b : ChildSpec) : ℚ :=
  if b.dir = .Input then
    -((stock0 dn cfn evn + (pre.map signedCons).sum) +
      (post.map signedCons).sum)
  else (stock0 dn cfn evn + (pre.map signedCons).sum) +
    (post.map signedCons).sum

/-- Full evaluation of the traversal of a conserving foreground node with
leaf children `pre ++ [b] ++ post`, `b` the balance child: the lead record is
normalized to magnitude `1`, the non-balance children appear once each in
order at their stored exchange values, the balance child appears once, last,
at the forced deficit `balV`, and the only state change is the memoization of
that deficit into the balance child's observed slot. -/
theorem consTraverse (dn : Direction) (cfn evn : ℚ)
    (pre post : List ChildSpec) (b : ChildSpec)
    (hb : b.isBal = true) (hpre : ∀ s ∈ pre, s.isBal = false)
    (hpost : ∀ s ∈ post, s.isBal = false) (hev : evn ≠ 0) (m : Nat) :
    traversal_entry (m + 2) (consWorld dn cfn evn (pre ++ b :: post)) 0
      .noScen false =
    .ok (⟨.frag 0, 1, 1, consParentTerm dn cfn, false⟩ ::
        ((leafRecs 1 1 pre ++ leafRecs 1 (pre.length + 2) post) ++
          [⟨.frag (pre.length + 1), balV dn cfn evn pre post b,
            balV dn cfn evn pre post b,
            nullTermination (mkChildFlow (pre.length + 1) b) b.dir, false⟩]),
      (consWorld dn cfn evn (pre ++ b :: post)).setFrag (pre.length + 1)
        (cache_balance_ev (mkChild (pre.length + 1) b)
          (balV dn cfn evn pre post b) .noScen)) := by
  set cs := pre ++ b :: post with hcs
  set w := consWorld dn cfn evn cs with hwdef
  have hx : exchange_value (consParent dn cfn evn cs.length) .noScen false =
      .ok evn := by
    by_cases h0 : evn = 0 <;>
      simp [exchange_value, exchange_value_base, match_scenario_ev,
        lookupScenEv, cached_ev, observed_ev, consParent, List.lookup, bind,
        Except.bind, pure, Except.pure, h0]
  have hw0 : w.frags 0 = some (consParent dn cfn evn cs.length) := rfl
  have hentry : entryEv (consParent dn cfn evn cs.length) .noScen false
      none = .ok (1 / evn) := by
    simp [entryEv,
      show (consParent dn cfn evn cs.length).reference_entity = none
        from rfl,
      hx, hev, bind, Except.bind, pure, Except.pure, one_div]
  have hm1 : evn * (1 / evn) = 1 := mul_one_div_cancel hev
  have ht : termination (consParent dn cfn evn cs.length) .noScen =
      .ok (consParentTerm dn cfn) := rfl
  have hnw : node_weight (consParent dn cfn evn cs.length) 1
      (consParentTerm dn cfn) = .ok 1 := by
    norm_num [node_weight, node_weight_multiplier, flow_conversion,
      consParentTerm, consParentFlow, FlowTermination.is_null, consParent,
      consQ, bind, Except.bind, pure, Except.pure]
  have his : initialStock (consParent dn cfn evn cs.length) .noScen false =
      .ok (some (stock0 dn cfn evn)) := by
    simp only [initialStock,
      show (consParent dn cfn evn cs.length).conserved_quantity = some consQ
        from rfl,
      show (consParent dn cfn evn cs.length).reference_entity = none
        from rfl,
      hx, bind, Except.bind, pure, Except.pure]
    norm_num [show (consParent dn cfn evn cs.length).flow =
        consParentFlow cfn from rfl, consParentFlow, consQ, stock0,
      show (consParent dn cfn evn cs.length).direction = dn from rfl]
  have hfb : w.frags (pre.length + 1) = some (mkChild (pre.length + 1) b) := by
    have hgb : cs.get? pre.length = some b := by
      rw [hcs, List.get?_append_right (le_refl pre.length)]
      simp
    have hgb' : cs[pre.length]? = some b := by
      simpa [List.get?_eq_getElem?] using hgb
    simp [hwdef, consWorld, hgb']
  have hat1 : SpecsAt w 1 pre := by
    have := consWorld_specsAt dn cfn evn cs pre 0 (fun k hk => by
      rw [hcs, Nat.zero_add, List.get?_append hk])
    simpa using this
  have hat2 : SpecsAt w (pre.length + 2) post := by
    have := consWorld_specsAt dn cfn evn cs post (pre.length + 1)
      (fun k hk => by
        rw [hcs, List.get?_append_right (by omega)]
        have hix : pre.length + 1 + k - pre.length = k + 1 := by omega
        rw [hix]
        rfl)
    simpa using this
  have hch : (consParent dn cfn evn cs.length).children =
      List.range' 1 pre.length ++
        ((pre.length + 1) :: List.range' (pre.length + 2) post.length) := by
    show List.range' 1 cs.length = _
    rw [show cs.length = 1 + post.length + pre.length from by
      simp [hcs]; omega]
    rw [← List.range'_append 1 pre.length (1 + post.length) 1]
    congr 1
    rw [show 1 + 1 * pre.length = pre.length + 1 from by omega]
    rw [show 1 + post.length = post.length + 1 from by omega]
    rw [List.range'_succ]
  -- the three phases of the child loop
  have step1 := childLoop_leaves m w 1 [0] pre 1 [] (stock0 dn cfn evn) none
    hat1 hpre
  have step2 := childLoop_append (traverse (m + 1)) 1 .noScen false [0]
    (some consQ) (List.range' 1 pre.length)
    ((pre.length + 1) :: List.range' (pre.length + 2) post.length)
    [] (some (stock0 dn cfn evn)) none w _ step1
  have hraise := balChild_raises m w (pre.length + 1) b hfb hb 1 [0]
  have step4 := childLoop_leaves m w 1 [0] post (pre.length + 2)
    ([] ++ leafRecs 1 1 pre)
    (stock0 dn cfn evn + (pre.map signedCons).sum) (some (pre.length + 1))
    hat2 hpost
  have hloop : childLoop (traverse (m + 1)) 1 .noScen false [0] (some consQ)
      (consParent dn cfn evn cs.length).children [] (some (stock0 dn cfn evn))
      none w =
    .ok (([] ++ leafRecs 1 1 pre) ++ leafRecs 1 (pre.length + 2) post,
      some ((stock0 dn cfn evn + (pre.map signedCons).sum) +
        (post.map signedCons).sum),
      some (pre.length + 1), w) := by
    rw [hch, step2]
    simp only [childLoop, hraise]
    exact step4
  have hbal := balChild_traverse m w (pre.length + 1) b hfb hb 1
    (balV dn cfn evn pre post b) [0]
  -- assemble
  unfold traversal_entry
  rw [show traverse (m + 2) = traverseStep (traverse (m + 1))
    (topFrag (m + 2)) from rfl]
  unfold traverseStep
  simp only [hw0, travEntryInWt,
    show (consParent dn cfn evn cs.length).reference_entity = none from rfl,
    hx, hentry, bind, Except.bind, pure, Except.pure]
  simp only [hm1, conservedCalc, ht, hnw,
    show (consParentTerm dn cfn).is_null = false from rfl,
    show (consParent dn cfn evn cs.length).is_background = false from rfl]
  rw [if_neg (by norm_num)]
  simp only [rootSeenCheck,
    show (consParent dn cfn evn cs.length).reference_entity = none from rfl,
    show (consParent dn cfn evn cs.length).fid = 0 from rfl,
    List.not_mem_nil, if_false, List.mem_nil_iff]
  rw [if_pos (Or.inl (by rfl))]
  simp only [his,
    show (consParent dn cfn evn cs.length).conserved_quantity = some consQ
      from rfl, hloop]
  simp only [hfb, show (mkChild (pre.length + 1) b).direction = b.dir
    from rfl]
  have hstockv : (if b.dir = .Input then
      -((stock0 dn cfn evn + (pre.map signedCons).sum) +
        (post.map signedCons).sum)
    else (stock0 dn cfn evn + (pre.map signedCons).sum) +
      (post.map signedCons).sum) = balV dn cfn evn pre post b := rfl
  rw [hstockv]
  simp only [hbal, one_mul]
  simp [List.append_assoc]

/-- C2: for a foreground-terminated conserving node with a designated
balance child, after traversal the signed sum over all children — the
non-balance children at `exchange value × characterization(Q)` and the
balance child at its memoized post-traversal exchange value times its
characterization for Q (which is `1`: Q is that child's flow's reference
quantity, auto-characterized at `1.0` by `LcFlow`), with inputs to the node
positive and outputs negative — equals the negative of the node's own signed
contribution in Q: net flow of Q across the node is zero (exactly, over
`ℚ`). -/
theorem conservation_balance (dn : Direction) (cfn evn : ℚ)
    (pre post : List ChildSpec) (b : ChildSpec)
    (hb : b.isBal = true) (hpre : ∀ s ∈ pre, s.isBal = false)
    (hpost : ∀ s ∈ post, s.isBal = false) (hev : evn ≠ 0) (m : Nat) :
    ∃ ffs w2,
      traversal_entry (m + 2) (consWorld dn cfn evn (pre ++ b :: post)) 0
        .noScen false = .ok (ffs, w2) ∧
      ∃ bf bv, w2.frags (pre.length + 1) = some bf ∧
        exchange_value bf .noScen false = .ok bv ∧
        ((pre ++ post).map signedCons).sum +
          (if b.dir = .Output then -(bv * 1) else bv * 1) =
          -(stock0 dn cfn evn) := by
  refine ⟨_, _, consTraverse dn cfn evn pre post b hb hpre hpost hev m,
    cache_balance_ev (mkChild (pre.length + 1) b)
      (balV dn cfn evn pre post b) .noScen, balV dn cfn evn pre post b,
    ?_, ?_, ?_⟩
  · simp [World.setFrag]
  · have hevs : (cache_balance_ev (mkChild (pre.length + 1) b)
        (balV dn cfn evn pre post b) .noScen).evs =
        [(.cached, b.ev), (.observed, balV dn cfn evn pre post b)] := by
      simp [cache_balance_ev, mkChild, updateEvStore, cacheBalanceKey,
        List.lookup]
    simp [exchange_value, exchange_value_base, match_scenario_ev,
      lookupScenEv, cached_ev, observed_ev, hevs, List.lookup,
      cache_balance_ev, mkChild, cacheBalanceKey, hb, bind, Except.bind,
      pure, Except.pure]
  · cases hd : b.dir <;>
      simp [balV, hd, List.map_append, List.sum_append, mul_one, stock0] <;>
      ring

/-- A run of leaf records whose uuids avoid `i` contributes no record with
fragment identity `i`. -/
theorem leafRecs_count_zero (nw : ℚ) :
    ∀ (specs : List ChildSpec) (start i : Nat),
      (i < start ∨ start + specs.length ≤ i) →
      (leafRecs nw start specs).countP
        (fun z => z.fragment.isFrag i) = 0 := by
  intro specs
  induction specs with
  | nil => intro start i _; simp [leafRecs]
  | cons s rest ih =>
    intro start i hi
    have hne : start ≠ i := by
      rcases hi with h | h
      · omega
      · simp only [List.length_cons] at h; omega
    have hprev : i < start + 1 ∨ start + 1 + rest.length ≤ i := by
      rcases hi with h | h
      · left; omega
      · right; simp only [List.length_cons] at h; omega
    simp only [leafRecs, List.countP_cons, ih (start + 1) i hprev]
    simp [leafRec, FFid.isFrag, hne]

/-- C6: the balance child of a conserving node is never expanded in the
normal child loop — reached with a conservation context, its traversal
raises the `BalanceFlowError` control signal (part i) — and the parent's
traversal output consists of the lead record, every non-balance child
exactly once in order, and the balance child exactly once, last, at the
accumulated deficit `balV` supplied as its forced magnitude (part ii); the
balance child's identity occurs exactly once in the output (part iii). -/
theorem balance_child_deferred_once (dn : Direction) (cfn evn : ℚ)
    (pre post : List ChildSpec) (b : ChildSpec)
    (hb : b.isBal = true) (hpre : ∀ s ∈ pre, s.isBal = false)
    (hpost : ∀ s ∈ post, s.isBal = false) (hev : evn ≠ 0) (m : Nat) :
    (∀ (nw : ℚ) (seen : List Nat),
      traverse (m + 1) (consWorld dn cfn evn (pre ++ b :: post))
        (pre.length + 1) nw .noScen false seen (some consQ) none =
        .error .balanceFlowError) ∧
    traversal_entry (m + 2) (consWorld dn cfn evn (pre ++ b :: post)) 0
      .noScen false =
    .ok (⟨.frag 0, 1, 1, consParentTerm dn cfn, false⟩ ::
        ((leafRecs 1 1 pre ++ leafRecs 1 (pre.length + 2) post) ++
          [⟨.frag (pre.length + 1), balV dn cfn evn pre post b,
            balV dn cfn evn pre post b,
            nullTermination (mkChildFlow (pre.length + 1) b) b.dir, false⟩]),
      (consWorld dn cfn evn (pre ++ b :: post)).setFrag (pre.length + 1)
        (cache_balance_ev (mkChild (pre.length + 1) b)
          (balV dn cfn evn pre post b) .noScen)) ∧
    (⟨.frag 0, 1, 1, consParentTerm dn cfn, false⟩ ::
        ((leafRecs 1 1 pre ++ leafRecs 1 (pre.length + 2) post) ++
          [⟨.frag (pre.length + 1), balV dn cfn evn pre post b,
            balV dn cfn evn pre post b,
            nullTermination (mkChildFlow (pre.length + 1) b) b.dir,
            false⟩])).countP
      (fun z => z.fragment.isFrag (pre.length + 1)) = 1 := by
  refine ⟨?_, consTraverse dn cfn evn pre post b hb hpre hpost hev m, ?_⟩
  · intro nw seen
    have hfb : (consWorld dn cfn evn (pre ++ b :: post)).frags
        (pre.length + 1) = some (mkChild (pre.length + 1) b) := by
      have hgb : (pre ++ b :: post).get? pre.length = some b := by
        rw [List.get?_append_right (le_refl pre.length)]
        simp
      have hgb' : (pre ++ b :: post)[pre.length]? = some b := by
        simpa [List.get?_eq_getElem?] using hgb
      simp [consWorld, hgb']
    exact balChild_raises m _ (pre.length + 1) b hfb hb nw seen
  · simp only [List.countP_cons, List.countP_append,
      leafRecs_count_zero 1 pre 1 (pre.length + 1) (by omega),
      leafRecs_count_zero 1 post (pre.length + 2) (pre.length + 1)
        (by left; omega)]
    simp [FFid.isFrag, List.countP_cons]

/-- Concrete non-balance child before the balance child: ev `3`, cf `4`,
an input. -/
def csPre : List ChildSpec := [⟨3, 4, .Input, false⟩]

/-- Concrete non-balance child after the balance child: ev `5`, cf `1`,
an output. -/
def csPost : List ChildSpec := [⟨5, 1, .Output, false⟩]

/-- Concrete balance child (stored ev ignored), an input. -/
def csBal : ChildSpec := ⟨0, 1, .Input, true⟩

/-- Witness for `conservation_balance` at the concrete conserving node
(`Output` direction, cf `2`, reference ev `1`) with children
`csPre ++ [csBal] ++ csPost`. -/
theorem conservation_balance_witness :
    ∃ ffs w2,
      traversal_entry 2 (consWorld .Output 2 1 (csPre ++ csBal :: csPost)) 0
        .noScen false = .ok (ffs, w2) ∧
      ∃ bf bv, w2.frags (csPre.length + 1) = some bf ∧
        exchange_value bf .noScen false = .ok bv ∧
        ((csPre ++ csPost).map signedCons).sum +
          (if csBal.dir = .Output then -(bv * 1) else bv * 1) =
          -(stock0 .Output 2 1) :=
  conservation_balance .Output 2 1 csPre csPost csBal rfl
    (by intro s hs; simp [csPre] at hs; subst hs; rfl)
    (by intro s hs; simp [csPost] at hs; subst hs; rfl)
    one_ne_zero 0

/-- Witness for `balance_child_deferred_once` at the same concrete node. -/
theorem balance_child_deferred_once_witness :
    (∀ (nw : ℚ) (seen : List Nat),
      traverse 1 (consWorld .Output 2 1 (csPre ++ csBal :: csPost))
        (csPre.length + 1) nw .noScen false seen (some consQ) none =
        .error .balanceFlowError) ∧
    traversal_entry 2 (consWorld .Output 2 1 (csPre ++ csBal :: csPost)) 0
      .noScen false =
    .ok (⟨.frag 0, 1, 1, consParentTerm .Output 2, false⟩ ::
        ((leafRecs 1 1 csPre ++ leafRecs 1 (csPre.length + 2) csPost) ++
          [⟨.frag (csPre.length + 1), balV .Output 2 1 csPre csPost csBal,
            balV .Output 2 1 csPre csPost csBal,
            nullTermination (mkChildFlow (csPre.length + 1) csBal) csBal.dir,
            false⟩]),
      (consWorld .Output 2 1 (csPre ++ csBal :: csPost)).setFrag
        (csPre.length + 1)
        (cache_balance_ev (mkChild (csPre.length + 1) csBal)
          (balV .Output 2 1 csPre csPost csBal) .noScen)) ∧
    (⟨.frag 0, 1, 1, consParentTerm .Output 2, false⟩ ::
        ((leafRecs 1 1 csPre ++ leafRecs 1 (csPre.length + 2) csPost) ++
          [⟨.frag (csPre.length + 1), balV .Output 2 1 csPre csPost csBal,
            balV .Output 2 1 csPre csPost csBal,
            nullTermination (mkChildFlow (csPre.length + 1) csBal) csBal.dir,
            false⟩])).countP
      (fun z => z.fragment.isFrag (csPre.length + 1)) = 1 :=
  balance_child_deferred_once .Output 2 1 csPre csPost csBal rfl
    (by intro s hs; simp [csPre] at hs; subst hs; rfl)
    (by intro s hs; simp [csPost] at hs; subst hs; rfl)
    one_ne_zero 0

/-- Witness for `reentry_invalid_parent_child`: part (i) at the root `0` of
`cycleWorld` with itself already in the seen set; part (ii) at fuel `3`. -/
theorem reentry_invalid_parent_child_witness :
    traverse 1 cycleWorld 0 1 .noScen false [0] none none =
      .error .invalidParentChild ∧
    traversal_entry 3 cycleWorld 0 .noScen false =
      .error .invalidParentChild := by
  constructor
  · refine reentry_invalid_parent_child.1 0 cycleWorld 0 1 .noScen false [0]
      none cycFrag0 1 (none, false) cycTerm0 1 rfl rfl rfl (by decide)
      ?_ rfl rfl ?_ rfl rfl (by norm_num)
    · norm_num [entryEv, exchange_value, exchange_value_base,
        match_scenario_ev, lookupScenEv, cached_ev, observed_ev, cycFrag0,
        List.lookup, bind, Except.bind, pure, Except.pure]
    · norm_num [node_weight, node_weight_multiplier, flow_conversion,
        cycTerm0, cycFrag0, cycFlowA, cycFlowB, FlowTermination.is_null,
        bind, Except.bind, pure, Except.pure]
  · exact reentry_invalid_parent_child.2 0

/-- The errors of the impact-aggregation embedding (`lcia_results.py`):
`DuplicateResult`, and Python `ValueError` from `FragmentFlow.__add__`. -/
inductive AggErr
  | duplicateResult
  | valueError
deriving DecidableEq, Repr

/-- An `ExchangeValue` as consumed by aggregation: owning entity (process or
fragment) uuid, flow uuid, direction, and value. -/
structure Exch where
  process : Nat
  flowId : Nat
  direction : Direction
  value : ℚ

/-- Modelled from the spec: a `Characterization` (its module,
`lcatools/characterizations.py`, is a collaborator outside the provided
sources) — "characterization factors against various quantities", looked up
per location.  `flowId` is the factor's flow, `locations` its known
locations, `valAt` its factor value at a location. -/
structure Characterization where
  flowId : Nat
  locations : List (Option String)
  valAt : Option String → ℚ

/-- `DetailedLciaResult`, reduced to the fields the merging logic reads
(the owning `LciaResult`'s scale and the direction adjustment only affect
score display, not merging). -/
structure DetailedLciaResult where
  exchange : Exch
  factor : Characterization
  location : Option String

/-- `DetailedLciaResult.__init__`: the location falls back to `'GLO'` when
the factor has no value there. -/
def mkDetailed (exch : Exch) (factor : Characterization)
    (location : Option String) : DetailedLciaResult :=
  { exchange := exch, factor := factor,
    location := if location ∈ factor.locations then location
      else some "GLO" }

/-- `SummaryLciaResult`, reduced likewise. -/
structure SummaryLciaResult where
  entity : Nat
  node_weight : ℚ
  unit_score : ℚ

/-- An element of `AggregateLciaScore.LciaDetails` (a Python set holding
both detailed and summary results). -/
inductive LciaEntry
  | detail (d : DetailedLciaResult)
  | summary (s : SummaryLciaResult)

/-- `DetailedLciaResult.__eq__`: same owning process and same factor flow. -/
def eqD (a b : DetailedLciaResult) : Bool :=
  a.exchange.process == b.exchange.process &&
    a.factor.flowId == b.factor.flowId

/-- Equality across `LciaDetails` entries: `DetailedLciaResult.__eq__` /
`SummaryLciaResult.__eq__`; entries of different kinds never compare
equal (`isinstance` checks). -/
def eqEntry : LciaEntry → LciaEntry → Bool
  | .detail a, .detail b => eqD a b
  | .summary a, .summary b => a.entity == b.entity
  | _, _ => false

/-- `DetailedLciaResult.__hash__` / `SummaryLciaResult.__hash__` as an
equality of hash keys: a detail hashes its (owning process, exchange
direction, factor flow) triple — note the direction, absent from `__eq__` —
and a summary hashes its entity; keys of the two kinds are distinct. -/
def hashEq : LciaEntry → LciaEntry → Bool
  | .detail a, .detail b =>
    a.exchange.process == b.exchange.process &&
      decide (a.exchange.direction = b.exchange.direction) &&
      a.factor.flowId == b.factor.flowId
  | .summary a, .summary b => a.entity == b.entity
  | _, _ => false

/-- `AggregateLciaScore`: the grouping entity (here a `FragmentFlow`, as in
fragment aggregation) and its `LciaDetails` set, modelled as a list in
iteration order.  CPython set membership compares stored hashes before
`__eq__`, so the set can hold several `__eq__`-equal detail entries that
differ in exchange direction. -/
structure AggregateLciaScore where
  entity : FragmentFlow
  details : List LciaEntry

/-- `FragmentFlow.__add__` with a `DetailedLciaResult`: requires the same
owning fragment (else `ValueError`) and adds the exchange value to both
magnitude and node weight. -/
def ffAddDetailed (f : FragmentFlow) (d : DetailedLciaResult) :
    Except AggErr FragmentFlow :=
  if f.fragment.isFrag d.exchange.process then
    .ok { f with magnitude := f.magnitude + d.exchange.value, node_weight := f.node_weight + d.exchange.value }
  else .error .valueError

/-- `FragmentFlow.__add__` with a `SummaryLciaResult`: requires the same
entity and adds its node weight to both magnitude and node weight. -/
def ffAddSummary (f : FragmentFlow) (s : SummaryLciaResult) :
    Except AggErr FragmentFlow :=
  if f.fragment.isFrag s.entity then
    .ok { f with magnitude := f.magnitude + s.node_weight, node_weight := f.node_weight + s.node_weight }
  else .error .valueError

/-- `AggregateLciaScore.add_summary_result`: an equal summary entry with a
different unit score is a `DuplicateResult`; with the same unit score its
node weight accumulates and the entity contents are augmented; otherwise the
entry is added.  (`next(k for k in self.LciaDetails if k == d)` picks the
set's unique equal element; the list's first equal element here.) -/
def add_summary_result (ag : AggregateLciaScore) (entity : Nat)
    (node_weight unit_score : ℚ) : Except AggErr AggregateLciaScore :=
  let d : SummaryLciaResult := ⟨entity, node_weight, unit_score⟩
  match ag.details.find? (fun e => eqEntry e (.summary d)) with
  | some (.summary other) =>
    if other.unit_score ≠ d.unit_score then .error .duplicateResult
    else
      let other' : SummaryLciaResult :=
        { other with
            node_weight := other.node_weight + node_weight }
      match ffAddSummary ag.entity other' with
      | .error e => .error e
      | .ok ent =>
        let pruned := ag.details.map
          fun e => if eqEntry e (.summary d) then .summary other' else e
        .ok { entity := ent, details := pruned }
  | some (.detail _) => .error .valueError
    -- unreachable: entries of different kinds never compare equal
  | none => .ok { ag with details := ag.details ++ [.summary d] }

/-- `AggregateLciaScore.add_detailed_result`.  The membership test
`d in self.LciaDetails` is CPython set membership, which compares stored
hashes before `__eq__`: `DetailedLciaResult.__hash__` covers (process,
direction, factor flow) while `__eq__` compares only (process, flow), so a
collision is found only when the exchange direction also matches.  A found
collision with the new factor nonzero at the location either conflicts
(`DuplicateResult`, factors differ) or is merged — the first `__eq__`-equal
entry (`next(k for k in self.LciaDetails if k == d)`, then `remove`d) is
replaced by a summary entry carrying the summed exchange values and the
common factor, and the entity contents are augmented by the new detail; a
found collision with the new factor zero is silently dropped; with no
hash-and-eq match the entry is added to the set, even when an `__eq__`-equal
entry of the opposite direction is already present. -/
def add_detailed_result (ag : AggregateLciaScore) (exch : Exch)
    (factor : Characterization) (location : Option String) :
    Except AggErr AggregateLciaScore :=
  let d := mkDetailed exch factor location
  match ag.details.find? (fun k =>
      hashEq k (.detail d) && eqEntry k (.detail d)) with
  | some _ =>
    match ag.details.find? (fun k => eqEntry k (.detail d)) with
    | some (.detail other) =>
      if factor.valAt location ≠ 0 then
        if other.factor.valAt location ≠ factor.valAt location then
          .error .duplicateResult
        else
          let pruned := ag.details.eraseP (fun e => eqEntry e (.detail d))
          match add_summary_result { ag with details := pruned }
            other.exchange.process (other.exchange.value + exch.value)
            (factor.valAt location) with
          | .error e => .error e
          | .ok ag2 =>
            match ffAddDetailed ag2.entity d with
            | .error e => .error e
            | .ok ent => .ok { ag2 with entity := ent }
      else .ok ag
    | some (.summary _) => .error .valueError
      -- unreachable: entries of different kinds never compare equal
    | none => .error .valueError
      -- unreachable: the hash-gated match is itself an equal element
  | none => .ok { ag with details := ag.details ++ [.detail d] }

/-- C9, amended: set membership is hash-gated, so two detail entries
collide only when they agree on the full hash key — process, exchange
direction, and factor flow.  For two such entries: if their factors at the
location are nonzero and differ, `DuplicateResult` is raised; if they agree
(and are nonzero), the two are merged into a single summary entry whose node
weight is the arithmetic sum of the two original exchange values and whose
entity contents are combined (both magnitude and node weight of the
grouping `FragmentFlow` grow by the new exchange value). -/
theorem duplicate_detail_merge (e1 e2 : Exch) (f1 f2 : Characterization)
    (loc : Option String) (ent : FragmentFlow)
    (hkey : e1.process = e2.process) (hdir : e1.direction = e2.direction)
    (hflow : f1.flowId = f2.flowId) :
    (f2.valAt loc ≠ 0 → f1.valAt loc ≠ f2.valAt loc →
      add_detailed_result ⟨ent, [.detail (mkDetailed e1 f1 loc)]⟩ e2 f2 loc =
        .error .duplicateResult) ∧
    (f1.valAt loc = f2.valAt loc → f2.valAt loc ≠ 0 →
      ent.fragment.isFrag e2.process = true →
      add_detailed_result ⟨ent, [.detail (mkDetailed e1 f1 loc)]⟩ e2 f2 loc =
        .ok ⟨{ ent with magnitude := ent.magnitude + e2.value, node_weight := ent.node_weight + e2.value },
          [.summary ⟨e1.process, e1.value + e2.value, f2.valAt loc⟩]⟩) := by
  have hhash : hashEq (.detail (mkDetailed e1 f1 loc))
      (.detail (mkDetailed e2 f2 loc)) = true := by
    simp [hashEq, mkDetailed, hkey, hdir, hflow]
  have heq : eqEntry (.detail (mkDetailed e1 f1 loc))
      (.detail (mkDetailed e2 f2 loc)) = true := by
    simp [eqEntry, eqD, mkDetailed, hkey, hflow]
  have hmem : List.find?
      (fun k => hashEq k (.detail (mkDetailed e2 f2 loc)) &&
        eqEntry k (.detail (mkDetailed e2 f2 loc)))
      [LciaEntry.detail (mkDetailed e1 f1 loc)] =
      some (LciaEntry.detail (mkDetailed e1 f1 loc)) := by
    simp [List.find?, hhash, heq]
  have hfind : List.find?
      (fun k => eqEntry k (.detail (mkDetailed e2 f2 loc)))
      [LciaEntry.detail (mkDetailed e1 f1 loc)] =
      some (LciaEntry.detail (mkDetailed e1 f1 loc)) := by
    simp [List.find?, heq]
  have hprune : List.eraseP
      (fun e => eqEntry e (.detail (mkDetailed e2 f2 loc)))
      [LciaEntry.detail (mkDetailed e1 f1 loc)] = [] := by
    simp [List.eraseP_cons, heq]
  constructor
  · intro hnz hne
    simp only [add_detailed_result, hmem, hfind]
    simp [show (mkDetailed e1 f1 loc).factor = f1 from rfl, hnz, hne]
  · intro hagree hnz hfr
    simp only [add_detailed_result, hmem, hfind]
    simp [show (mkDetailed e1 f1 loc).factor = f1 from rfl,
      show (mkDetailed e1 f1 loc).exchange = e1 from rfl,
      show (mkDetailed e2 f2 loc).exchange = e2 from rfl,
      hagree, hnz, hprune, add_summary_result, ffAddDetailed, hfr]

/-- A concrete factor with value `7` everywhere. -/
def charSeven : Characterization := ⟨50, [], fun _ => 7⟩

/-- A concrete factor with value `9` everywhere. -/
def charNine : Characterization := ⟨50, [], fun _ => 9⟩

/-- C9, counterexample part: `DetailedLciaResult.__hash__` includes the
exchange direction while `__eq__` does not, and set membership compares
hashes before `__eq__`; so two detail entries with the same (process, flow)
key `(40, 50)` but opposite directions are never detected as a collision —
despite differing nonzero factors (`7` vs `9`) no `DuplicateResult` is
raised and no merge happens: the second entry is simply added alongside the
first. -/
theorem duplicate_detail_cross_direction :
    add_detailed_result
        ⟨⟨.frag 40, 1, 1, nullTermination exFlowB .Output, false⟩,
          [.detail (mkDetailed ⟨40, 50, .Input, 2⟩ charSeven none)]⟩
        ⟨40, 50, .Output, 5⟩ charNine none =
      .ok ⟨⟨.frag 40, 1, 1, nullTermination exFlowB .Output, false⟩,
        [.detail (mkDetailed ⟨40, 50, .Input, 2⟩ charSeven none),
          .detail (mkDetailed ⟨40, 50, .Output, 5⟩ charNine none)]⟩ := rfl

/-- Witness for `duplicate_detail_merge`: entity `40`, flow `50`, both
exchanges inputs; factors `7` vs `9` conflict; factors `7` and `7` merge
into a summary of node weight `2 + 5`. -/
theorem duplicate_detail_merge_witness :
    (add_detailed_result
        ⟨⟨.frag 40, 1, 1, nullTermination exFlowB .Output, false⟩,
          [.detail (mkDetailed ⟨40, 50, .Input, 2⟩ charSeven none)]⟩
        ⟨40, 50, .Input, 5⟩ charNine none = .error .duplicateResult) ∧
    (add_detailed_result
        ⟨⟨.frag 40, 1, 1, nullTermination exFlowB .Output, false⟩,
          [.detail (mkDetailed ⟨40, 50, .Input, 2⟩ charSeven none)]⟩
        ⟨40, 50, .Input, 5⟩ charSeven none =
      .ok ⟨⟨.frag 40, 1 + (5 : ℚ), 1 + (5 : ℚ),
          nullTermination exFlowB .Output, false⟩,
        [.summary ⟨40, 2 + (5 : ℚ), 7⟩]⟩) := by
  constructor
  · exact (duplicate_detail_merge ⟨40, 50, .Input, 2⟩ ⟨40, 50, .Input, 5⟩
      charSeven charNine none
      ⟨.frag 40, 1, 1, nullTermination exFlowB .Output, false⟩
      rfl rfl rfl).1 (by norm_num [charNine])
      (by norm_num [charSeven, charNine])
  · exact (duplicate_detail_merge ⟨40, 50, .Input, 2⟩ ⟨40, 50, .Input, 5⟩
      charSeven charSeven none
      ⟨.frag 40, 1, 1, nullTermination exFlowB .Output, false⟩
      rfl rfl rfl).2 rfl (by norm_num [charSeven]) (by decide)

end Lca
